import Mathlib

/-! The vector-body recognizer of chap.

A shallow embedding of `VectorAllocationsTagger<Offset>` (src/VectorAllocationsTagger.h)
together with the parts of its collaborators that it calls.  The describers
(src/LongStringDescriber.h, src/SSL_CTXDescriber.h) and `ProcessImage` (src/ProcessImage.h)
follow the tagger.

Conventions of the embedding.

* `Offset` is an unsigned machine word of `sizeofOffset` bytes.  Values are natural
  numbers; the only arithmetic the tagger performs on them, `address + size`, is
  reduced modulo `2 ^ (8 * sizeofOffset)` exactly where the C++ code computes it.
* A pointer into an array (`const Offset*`, `const AllocationIndex*`) is the function
  from element index to the element stored there; a pointer into the contiguous image
  of an allocation is its distance in words from `FirstOffset()`.
* The tag holder is mutable state shared by reference in the C++ code; here it is
  passed in and returned explicitly.
-/

namespace chap

/-- The phases of the tagger contract, `Tagger::Phase`. -/
inductive Phase where
  | QUICK_INITIAL_CHECK
  | MEDIUM_CHECK
  | SLOW_CHECK
  | WEAK_CHECK
  deriving DecidableEq, Repr

/-- The class `Finder::Allocation` as far as the tagger reads it: `Address()` and `Size()`. -/
structure Allocation where
  Address : Nat
  Size : Nat
  deriving DecidableEq, Repr

/-- One call of `TagHolder::TagAllocation`: the arguments of the call and the tag the
allocation carried at the moment of the call. -/
structure TagRequest where
  index : Nat
  tagIndex : Nat
  current : Nat
  deriving DecidableEq, Repr

/-- Modelled from the spec: the class `Allocations::TagHolder` (Allocations/TagHolder.h) is
not among the sources.  Spec 4.5: the backing storage is a single dense array sized
`NumAllocations()`, tag `0` means untagged, and tags are named at registration.
`requests` is a history of the `TagAllocation` calls received; no operation reads it. -/
structure TagHolder where
  tagNames : List String
  tags : List Nat
  requests : List TagRequest
  deriving DecidableEq, Repr

/-- Modelled from the spec: the constructor `TagHolder(numAllocations)`, every allocation
untagged and no tag registered. -/
def TagHolder.new (numAllocations : Nat) : TagHolder :=
  { tagNames := [], tags := List.replicate numAllocations 0, requests := [] }

/-- Modelled from the spec: the method `RegisterTag(name)`; index `0` is reserved for
"untagged", so the first registered tag is `1`, the second `2`, and so on. -/
def TagHolder.RegisterTag (th : TagHolder) (name : String) : Nat × TagHolder :=
  (th.tagNames.length + 1, { th with tagNames := th.tagNames ++ [name] })

/-- Modelled from the spec: the method `GetTagIndex(index)`, the current tag of the
allocation (`0` outside the backing array). -/
def TagHolder.GetTagIndex (th : TagHolder) (index : Nat) : Nat :=
  th.tags.getD index 0

/-- Modelled from the spec: the method `TagAllocation(index, tagIndex)`, which "succeeds iff
the current tag is `0`, else silently ignored" (spec 4.5).  An index outside the backing
array is a contract violation (spec 7); such a call writes no tag here. -/
def TagHolder.TagAllocation (th : TagHolder) (index tagIndex : Nat) : TagHolder :=
  { th with
    tags := if th.GetTagIndex index = 0 then th.tags.set index tagIndex else th.tags
    requests := th.requests ++ [⟨index, tagIndex, th.GetTagIndex index⟩] }

/-- The part of `VirtualAddressMap<Offset>` the tagger calls.  `FindMappedMemoryImage a`
gives the number of contiguous bytes mapped at `a` and the image found there, viewed the
way the tagger views it (`(Offset*)image`): word `j` of the image. -/
structure VirtualAddressMap where
  FindMappedMemoryImage : Nat → Nat × (Nat → Nat)

/-- The part of `Allocations::Finder<Offset>` the tagger calls. -/
structure Finder where
  NumAllocations : Nat
  AllocationAt : Nat → Allocation
  GetAddressMap : VirtualAddressMap

/-- The part of `Allocations::Graph<Offset>` the tagger can call: the three per-allocation
anchor lists (each possibly null) and the finder. -/
structure Graph where
  GetAllocationFinder : Finder
  GetStaticAnchors : Nat → Option (List Nat)
  GetStackAnchors : Nat → Option (List Nat)
  GetRegisterAnchors : Nat → Option (List Nat)

/-- The class `Allocations::ContiguousImage<Offset>`: the words of one allocation.
`numOffsets` is `OffsetLimit() - FirstOffset()` and `offsetAt k` is `FirstOffset()[k]`. -/
structure ContiguousImage where
  numOffsets : Nat
  offsetAt : Nat → Nat

/-- The pointer `FirstOffset()`, as a distance in words from the start of the image. -/
def ContiguousImage.FirstOffset (_contiguousImage : ContiguousImage) : Int := 0

/-- The pointer `OffsetLimit()`, as a distance in words from the start of the image. -/
def ContiguousImage.OffsetLimit (contiguousImage : ContiguousImage) : Int :=
  contiguousImage.numOffsets

/-- The data members of `VectorAllocationsTagger<Offset>`; `_tagHolder` is the explicit
state argument of the member functions below. -/
structure VectorAllocationsTagger where
  _graph : Graph
  _finder : Finder
  _numAllocations : Nat
  _addressMap : VirtualAddressMap
  _tagIndex : Nat

/-- The constructor `VectorAllocationsTagger(graph, tagHolder)`. -/
def VectorAllocationsTagger.new (graph : Graph) (tagHolder : TagHolder) :
    VectorAllocationsTagger × TagHolder :=
  let finder := graph.GetAllocationFinder
  let registered := tagHolder.RegisterTag "vector body"
  ({ _graph := graph
     _finder := finder
     _numAllocations := finder.NumAllocations
     _addressMap := finder.GetAddressMap
     _tagIndex := registered.1 }, registered.2)

/-- The range-for loop of `CheckVectorBodyAnchorIn` over the anchors still to visit. -/
def CheckVectorBodyAnchorIn.loop (sizeofOffset : Nat) (t : VectorAllocationsTagger)
    (th : TagHolder) (bodyIndex bodyAddress bodyLimit : Nat) : List Nat → Bool × TagHolder
  | [] => (false, th)
  | anchor :: rest =>
    let found := t._addressMap.FindMappedMemoryImage anchor
    let numBytesFound := found.1
    let check := found.2
    if numBytesFound < 3 * sizeofOffset then
      CheckVectorBodyAnchorIn.loop sizeofOffset t th bodyIndex bodyAddress bodyLimit rest
    else if check 0 ≠ bodyAddress then
      CheckVectorBodyAnchorIn.loop sizeofOffset t th bodyIndex bodyAddress bodyLimit rest
    else
      let useLimit := check 1
      if useLimit < bodyAddress then
        CheckVectorBodyAnchorIn.loop sizeofOffset t th bodyIndex bodyAddress bodyLimit rest
      else
        let capacityLimit := check 2
        if capacityLimit < useLimit ∨ capacityLimit > bodyLimit ∨
            capacityLimit = bodyAddress then
          CheckVectorBodyAnchorIn.loop sizeofOffset t th bodyIndex bodyAddress bodyLimit rest
        else
          (true, th.TagAllocation bodyIndex t._tagIndex)

/-- The member function `CheckVectorBodyAnchorIn(bodyIndex, bodyAllocation, anchors)`. -/
def CheckVectorBodyAnchorIn (sizeofOffset : Nat) (t : VectorAllocationsTagger)
    (th : TagHolder) (bodyIndex : Nat) (bodyAllocation : Allocation)
    (anchors : Option (List Nat)) : Bool × TagHolder :=
  let bodyAddress := bodyAllocation.Address
  let bodyLimit := (bodyAddress + bodyAllocation.Size) % 2 ^ (8 * sizeofOffset)
  match anchors with
  | none => (false, th)
  | some anchorList =>
    CheckVectorBodyAnchorIn.loop sizeofOffset t th bodyIndex bodyAddress bodyLimit anchorList

/-- The member function `TagFromAllocation(_, _, index, phase, allocation, _)`: the returned
flag and the tag holder after the call. -/
def TagFromAllocation (sizeofOffset : Nat) (t : VectorAllocationsTagger) (th : TagHolder)
    (index : Nat) (phase : Phase) (allocation : Allocation) : Bool × TagHolder :=
  if th.GetTagIndex index ≠ 0 then (true, th)
  else
    match phase with
    | .QUICK_INITIAL_CHECK => (decide (allocation.Size < 2 * sizeofOffset), th)
    | .MEDIUM_CHECK => (false, th)
    | .SLOW_CHECK => (false, th)
    | .WEAK_CHECK =>
      let fromStatic :=
        CheckVectorBodyAnchorIn sizeofOffset t th index allocation (t._graph.GetStaticAnchors index)
      if !fromStatic.1 then
        (true, (CheckVectorBodyAnchorIn sizeofOffset t fromStatic.2 index allocation
          (t._graph.GetStackAnchors index)).2)
      else (true, fromStatic.2)

/-- One execution of the body of the for loop of `CheckEmbeddedVectors` with the loop
pointer at word `check`: the loop pointer at the end of the body (before `check++`) and the
tag holder. -/
def CheckEmbeddedVectors.body (sizeofOffset : Nat) (t : VectorAllocationsTagger)
    (contiguousImage : ContiguousImage) (unresolvedOutgoing : Nat → Nat)
    (check : Nat) (th : TagHolder) : Nat × TagHolder :=
  let bodyIndex := unresolvedOutgoing check
  if bodyIndex = t._numAllocations then (check, th)
  else if th.GetTagIndex bodyIndex ≠ 0 then (check, th)
  else
    let allocation := t._finder.AllocationAt bodyIndex
    let address := allocation.Address
    let bodyLimit := (address + allocation.Size) % 2 ^ (8 * sizeofOffset)
    if contiguousImage.offsetAt check ≠ address then (check, th)
    else
      let useLimit := contiguousImage.offsetAt (check + 1)
      if useLimit < address then (check, th)
      else
        let capacityLimit := contiguousImage.offsetAt (check + 2)
        if capacityLimit < useLimit ∨ capacityLimit > bodyLimit ∨ capacityLimit = address then
          (check, th)
        else
          (check + 2, th.TagAllocation bodyIndex t._tagIndex)

/-- The for loop of `CheckEmbeddedVectors`, `for (check = ...; check < offsetLimit; check++)`.
`fuel` bounds the number of iterations; `CheckEmbeddedVectors` passes the number of words of
the image, which the loop cannot use up (`CheckEmbeddedVectors.loop_fuel` below). -/
def CheckEmbeddedVectors.loop (sizeofOffset : Nat) (t : VectorAllocationsTagger)
    (contiguousImage : ContiguousImage) (unresolvedOutgoing : Nat → Nat) (offsetLimit : Int) :
    Nat → Nat → TagHolder → TagHolder
  | 0, _, th => th
  | fuel + 1, check, th =>
    if (check : Int) < offsetLimit then
      let after :=
        CheckEmbeddedVectors.body sizeofOffset t contiguousImage unresolvedOutgoing check th
      CheckEmbeddedVectors.loop sizeofOffset t contiguousImage unresolvedOutgoing offsetLimit
        fuel (after.1 + 1) after.2
    else th

/-- The member function `CheckEmbeddedVectors(contiguousImage, unresolvedOutgoing)`. -/
def CheckEmbeddedVectors (sizeofOffset : Nat) (t : VectorAllocationsTagger) (th : TagHolder)
    (contiguousImage : ContiguousImage) (unresolvedOutgoing : Nat → Nat) : TagHolder :=
  let offsetLimit : Int := contiguousImage.OffsetLimit - 2
  let firstOffset : Int := contiguousImage.FirstOffset
  CheckEmbeddedVectors.loop sizeofOffset t contiguousImage unresolvedOutgoing offsetLimit
    contiguousImage.numOffsets firstOffset.toNat th

/-- The member function `TagFromReferenced(contiguousImage, _, _, phase, allocation,
unresolvedOutgoing)`: the returned flag and the tag holder after the call. -/
def TagFromReferenced (sizeofOffset : Nat) (t : VectorAllocationsTagger) (th : TagHolder)
    (contiguousImage : ContiguousImage) (phase : Phase) (allocation : Allocation)
    (unresolvedOutgoing : Nat → Nat) : Bool × TagHolder :=
  match phase with
  | .QUICK_INITIAL_CHECK => (decide (allocation.Size < 3 * sizeofOffset), th)
  | .MEDIUM_CHECK => (false, th)
  | .SLOW_CHECK => (false, th)
  | .WEAK_CHECK =>
    (false, CheckEmbeddedVectors sizeofOffset t th contiguousImage unresolvedOutgoing)

/-! ## Predicates of the spec -/

/-- Spec 4.7 (VectorBody): the five conditions on an anchor word triple
`(start, useLimit, capacityLimit)` for a body at `address` whose end is `limit`. -/
def VectorTriple (address limit start useLimit capacityLimit : Nat) : Prop :=
  start = address ∧ useLimit ≥ address ∧ capacityLimit ≥ useLimit ∧
    capacityLimit ≤ limit ∧ capacityLimit ≠ address

instance (address limit start useLimit capacityLimit : Nat) :
    Decidable (VectorTriple address limit start useLimit capacityLimit) :=
  inferInstanceAs (Decidable (start = address ∧ useLimit ≥ address ∧
    capacityLimit ≥ useLimit ∧ capacityLimit ≤ limit ∧ capacityLimit ≠ address))

/-- The anchor address `anchor` has at least three words mapped and the three words read
there form a vector triple for the body at `address` ending at `limit`. -/
def AnchorQualifies (sizeofOffset : Nat) (addressMap : VirtualAddressMap)
    (address limit anchor : Nat) : Prop :=
  3 * sizeofOffset ≤ (addressMap.FindMappedMemoryImage anchor).1 ∧
    VectorTriple address limit
      ((addressMap.FindMappedMemoryImage anchor).2 0)
      ((addressMap.FindMappedMemoryImage anchor).2 1)
      ((addressMap.FindMappedMemoryImage anchor).2 2)

instance (sizeofOffset : Nat) (addressMap : VirtualAddressMap) (address limit anchor : Nat) :
    Decidable (AnchorQualifies sizeofOffset addressMap address limit anchor) :=
  inferInstanceAs (Decidable (3 * sizeofOffset ≤ (addressMap.FindMappedMemoryImage anchor).1 ∧
    VectorTriple address limit
      ((addressMap.FindMappedMemoryImage anchor).2 0)
      ((addressMap.FindMappedMemoryImage anchor).2 1)
      ((addressMap.FindMappedMemoryImage anchor).2 2)))

/-! ## The trace of the embedded scan -/

/-- The triple at word `check` of the image is one that `CheckEmbeddedVectors` accepts in
tag-holder state `th`: the outgoing slot is not the sentinel, the allocation it names is
untagged, and the words at `check`, `check + 1`, `check + 2` form a vector triple for it
(the body limit being the `Offset` sum the code computes). -/
def CheckEmbeddedVectors.Accepts (sizeofOffset : Nat) (t : VectorAllocationsTagger)
    (contiguousImage : ContiguousImage) (unresolvedOutgoing : Nat → Nat)
    (check : Nat) (th : TagHolder) : Prop :=
  unresolvedOutgoing check ≠ t._numAllocations ∧
  th.GetTagIndex (unresolvedOutgoing check) = 0 ∧
  VectorTriple (t._finder.AllocationAt (unresolvedOutgoing check)).Address
    (((t._finder.AllocationAt (unresolvedOutgoing check)).Address +
      (t._finder.AllocationAt (unresolvedOutgoing check)).Size) % 2 ^ (8 * sizeofOffset))
    (contiguousImage.offsetAt check) (contiguousImage.offsetAt (check + 1))
    (contiguousImage.offsetAt (check + 2))

/-- The iterations of the for loop of `CheckEmbeddedVectors`, in order: the loop pointer and
the tag holder at the start of each execution of the loop body. -/
def CheckEmbeddedVectors.iterations (sizeofOffset : Nat) (t : VectorAllocationsTagger)
    (contiguousImage : ContiguousImage) (unresolvedOutgoing : Nat → Nat) (offsetLimit : Int) :
    Nat → Nat → TagHolder → List (Nat × TagHolder)
  | 0, _, _ => []
  | fuel + 1, check, th =>
    if (check : Int) < offsetLimit then
      let after :=
        CheckEmbeddedVectors.body sizeofOffset t contiguousImage unresolvedOutgoing check th
      (check, th) ::
        CheckEmbeddedVectors.iterations sizeofOffset t contiguousImage unresolvedOutgoing
          offsetLimit fuel (after.1 + 1) after.2
    else []

/-- The iterations of one call of `CheckEmbeddedVectors`. -/
def CheckEmbeddedVectors.trace (sizeofOffset : Nat) (t : VectorAllocationsTagger)
    (th : TagHolder) (contiguousImage : ContiguousImage) (unresolvedOutgoing : Nat → Nat) :
    List (Nat × TagHolder) :=
  CheckEmbeddedVectors.iterations sizeofOffset t contiguousImage unresolvedOutgoing
    (contiguousImage.OffsetLimit - 2) contiguousImage.numOffsets 0 th

/-- The word offsets one call of `CheckEmbeddedVectors` examines as the start of a triple. -/
def CheckEmbeddedVectors.examined (sizeofOffset : Nat) (t : VectorAllocationsTagger)
    (th : TagHolder) (contiguousImage : ContiguousImage) (unresolvedOutgoing : Nat → Nat) :
    List Nat :=
  (CheckEmbeddedVectors.trace sizeofOffset t th contiguousImage unresolvedOutgoing).map Prod.fst

/-- The word offsets at which one call of `CheckEmbeddedVectors` calls `TagAllocation`,
that is, at which the loop body hands back a tag holder other than the one it received. -/
def CheckEmbeddedVectors.accepted (sizeofOffset : Nat) (t : VectorAllocationsTagger)
    (th : TagHolder) (contiguousImage : ContiguousImage) (unresolvedOutgoing : Nat → Nat) :
    List Nat :=
  ((CheckEmbeddedVectors.trace sizeofOffset t th contiguousImage unresolvedOutgoing).filter
    (fun p => decide ((CheckEmbeddedVectors.body sizeofOffset t contiguousImage
      unresolvedOutgoing p.1 p.2).2 ≠ p.2))).map Prod.fst

/-! ## Concrete process images used by the closed theorems

All of them are 64-bit images (`sizeofOffset = 8`). -/

/-- Scenario S1 of the spec: the body of a `std::vector<int>` of capacity 8 with 3 used
entries at `0x10000000`, its header on the main thread stack. -/
def s1Body : Allocation := { Address := 0x10000000, Size := 0x20 }

/-- The address map of scenario S1: the vector header at stack address `0x7ffd1000`. -/
def s1AddressMap : VirtualAddressMap :=
  { FindMappedMemoryImage := fun a =>
      if a = 0x7ffd1000 then (0x1000, fun j => [0x10000000, 0x1000000c, 0x10000020].getD j 0)
      else (0, fun _ => 0) }

/-- The finder of scenario S1: one allocation. -/
def s1Finder : Finder :=
  { NumAllocations := 1, AllocationAt := fun _ => s1Body, GetAddressMap := s1AddressMap }

/-- The graph of scenario S1: the body has one stack anchor and no other anchor. -/
def s1Graph : Graph :=
  { GetAllocationFinder := s1Finder
    GetStaticAnchors := fun _ => none
    GetStackAnchors := fun i => if i = 0 then some [0x7ffd1000] else none
    GetRegisterAnchors := fun _ => none }

/-- The tagger of scenario S1, constructed on a fresh tag holder. -/
def s1Tagger : VectorAllocationsTagger := (VectorAllocationsTagger.new s1Graph (TagHolder.new 1)).1

/-- The tag holder of scenario S1 after the construction of the tagger. -/
def s1Holder : TagHolder := (VectorAllocationsTagger.new s1Graph (TagHolder.new 1)).2

/-- A small allocation: 8 bytes at `0x1000`, less than two 64-bit words. -/
def smallBody : Allocation := { Address := 0x1000, Size := 8 }

/-- An allocation of three words at `0x2000` holding a vector header for `smallBody`. -/
def smallOwner : Allocation := { Address := 0x2000, Size := 0x18 }

/-- The address map of the small image: static data at `0x600000` holds the triple
`(0x1000, 0x1004, 0x1008)`, a vector header for `smallBody`. -/
def smallAddressMap : VirtualAddressMap :=
  { FindMappedMemoryImage := fun a =>
      if a = 0x600000 then (0x100, fun j => [0x1000, 0x1004, 0x1008].getD j 0)
      else (0, fun _ => 0) }

/-- The finder of the small image: `smallBody` at index 0, `smallOwner` at index 1. -/
def smallFinder : Finder :=
  { NumAllocations := 2
    AllocationAt := fun i => if i = 0 then smallBody else smallOwner
    GetAddressMap := smallAddressMap }

/-- The graph of the small image: `smallBody` has the static anchor `0x600000`. -/
def smallGraph : Graph :=
  { GetAllocationFinder := smallFinder
    GetStaticAnchors := fun i => if i = 0 then some [0x600000] else none
    GetStackAnchors := fun _ => none
    GetRegisterAnchors := fun _ => none }

/-- The tagger of the small image, constructed on a fresh tag holder. -/
def smallTagger : VectorAllocationsTagger :=
  (VectorAllocationsTagger.new smallGraph (TagHolder.new 2)).1

/-- The tag holder of the small image after the construction of the tagger. -/
def smallHolder : TagHolder := (VectorAllocationsTagger.new smallGraph (TagHolder.new 2)).2

/-- The contiguous image of `smallOwner`: the triple `(0x1000, 0x1004, 0x1008)`. -/
def smallOwnerImage : ContiguousImage :=
  { numOffsets := 3, offsetAt := fun k => [0x1000, 0x1004, 0x1008].getD k 0 }

/-- The outgoing slots of `smallOwner`: words 0 and 1 point into `smallBody`, word 2 points
just past it, to no allocation (the sentinel 2). -/
def smallOwnerOutgoing : Nat → Nat := fun k => [0, 0, 2].getD k 2

/-- The finder of the adjacent image: two bodies of 0x20 bytes with nothing between them,
`0x1000 .. 0x1020` at index 0 and `0x1020 .. 0x1040` at index 1, and their owner at index 2
(the "BLLl" layout of the comment in `CheckEmbeddedVectors`). -/
def adjacentFinder : Finder :=
  { NumAllocations := 3
    AllocationAt := fun i =>
      [({ Address := 0x1000, Size := 0x20 } : Allocation), { Address := 0x1020, Size := 0x20 },
        { Address := 0x2000, Size := 0x20 }].getD i { Address := 0, Size := 0 }
    GetAddressMap := { FindMappedMemoryImage := fun _ => (0, fun _ => 0) } }

/-- The graph of the adjacent image: no anchors. -/
def adjacentGraph : Graph :=
  { GetAllocationFinder := adjacentFinder
    GetStaticAnchors := fun _ => none
    GetStackAnchors := fun _ => none
    GetRegisterAnchors := fun _ => none }

/-- The tagger of the adjacent image, constructed on a fresh tag holder. -/
def adjacentTagger : VectorAllocationsTagger :=
  (VectorAllocationsTagger.new adjacentGraph (TagHolder.new 3)).1

/-- The tag holder of the adjacent image after the construction of the tagger. -/
def adjacentHolder : TagHolder := (VectorAllocationsTagger.new adjacentGraph (TagHolder.new 3)).2

/-- The owner of the adjacent image. -/
def adjacentOwner : Allocation := { Address := 0x2000, Size := 0x20 }

/-- The contiguous image of the owner: `B L L l` with `B = 0x1000`, `L = 0x1020`,
`l = 0x1040`; words 0..2 are the header of a full vector in the first body, words 1..3 the
header of an empty vector in the second. -/
def adjacentOwnerImage : ContiguousImage :=
  { numOffsets := 4, offsetAt := fun k => [0x1000, 0x1020, 0x1020, 0x1040].getD k 0 }

/-- The outgoing slots of the owner: word 0 points to allocation 0, words 1 and 2 to
allocation 1, word 3 to no allocation (the sentinel 3). -/
def adjacentOwnerOutgoing : Nat → Nat := fun k => [0, 1, 1, 3].getD k 3

/-- An owner image in which the vector header starts at word 1: one word that is no
reference, then the triple `(0x1000, 0x1010, 0x1020)` for allocation 0 of the adjacent
image. -/
def shiftedOwnerImage : ContiguousImage :=
  { numOffsets := 4, offsetAt := fun k => [7, 0x1000, 0x1010, 0x1020].getD k 0 }

/-- The outgoing slots of the shifted owner image. -/
def shiftedOwnerOutgoing : Nat → Nat := fun k => [3, 0, 0, 1].getD k 3

/-! ## Describers

`LongStringDescriber<Offset>::Describe` (src/LongStringDescriber.h) and
`SSL_CTXDescriber<Offset>::Describe` (src/SSL_CTXDescriber.h).  A `char` is a `Char`; the
output object is passed in through the context and handed back as the result. -/

/-- Modelled from the spec: the class `Commands::Output` (Commands/Runner.h) is not among the
sources.  Spec 4.9: the output of a describer is plain text.  `text` is the text written so
far, `hexMode` records that `std::hex` was sent, and `render hexMode n` is the digit string
that `<<` writes for the unsigned integer `n` in the base in effect. -/
structure Output where
  text : String
  hexMode : Bool
  render : Bool → Nat → String

/-- Modelled from the spec: the operator `<<` of `Commands::Output` for a string. -/
def Output.write (output : Output) (s : String) : Output :=
  { output with text := output.text ++ s }

/-- Modelled from the spec: the operator `<<` of `Commands::Output` for `std::hex`. -/
def Output.hex (output : Output) : Output :=
  { output with hexMode := true }

/-- Modelled from the spec: the operator `<<` of `Commands::Output` for an `Offset`. -/
def Output.writeOffset (output : Output) (n : Nat) : Output :=
  { output with text := output.text ++ output.render output.hexMode n }

/-- The part of `Commands::Context` the describers call: `GetOutput()`. -/
structure Context where
  GetOutput : Output

/-- The class `VirtualAddressMap<Offset>` as the describers read it.
`FindMappedMemoryImage a` gives the number of contiguous bytes mapped at `a` and the image
found there as `const char*`: byte `j` of the image. -/
structure VirtualAddressMapBytes where
  FindMappedMemoryImage : Nat → Nat × (Nat → Char)

/-- The scan of `strlen` from byte `j` on, over `numBytes` more mapped bytes. -/
def strlen.scan (image : Nat → Char) : Nat → Nat → Option Nat
  | 0, _ => none
  | numBytes + 1, j =>
    if image j = Char.ofNat 0 then some j else strlen.scan image numBytes (j + 1)

/-- The C library function `strlen` on an image of which `numBytes` bytes are mapped: the
offset of the first NUL byte, `none` when no mapped byte is NUL (the scan would leave the
image; the C++ code has no defined result then). -/
def strlen (image : Nat → Char) (numBytes : Nat) : Option Nat :=
  strlen.scan image numBytes 0

/-- The first `count` bytes of an image as a string: what `<<` writes for a `const char*`
whose string has length `count`, and the value of `std::string(image, count)`. -/
def stringOf (image : Nat → Char) (count : Nat) : String :=
  String.mk ((List.range count).map image)

/-- The member function `LongStringDescriber::Describe(context, _, allocation, explain)`:
the output after the call, `none` when `strlen` has no defined result. -/
def LongStringDescriber.Describe (sizeofOffset : Nat) (_addressMap : VirtualAddressMapBytes)
    (context : Context) (allocation : Allocation) (explain : Bool) : Option Output :=
  let output := context.GetOutput
  let found := _addressMap.FindMappedMemoryImage allocation.Address
  let numBytesFound := found.1
  let allocationImage := found.2
  if numBytesFound ≥ allocation.Size then
    match strlen allocationImage numBytesFound with
    | none => none
    | some length =>
      let stringLength := length % 2 ^ (8 * sizeofOffset)
      let output := output.write "This allocation matches pattern LongString.\n"
      let output := ((output.write "The string has 0x").hex.writeOffset stringLength).write
        " bytes, "
      if explain ∨ stringLength < 77 then
        some (((output.write "containing\n\"").write (stringOf allocationImage length)).write
          "\".\n")
      else
        some (((output.write "starting with\n\"").write (stringOf allocationImage 77)).write
          "\".\n")
  else some output

/-- The member function `SSL_CTXDescriber::Describe(context, index, allocation, explain)`:
the output after the call. -/
def SSL_CTXDescriber.Describe (context : Context) (_index : Nat) (_allocation : Allocation)
    (explain : Bool) : Output :=
  let output := context.GetOutput
  let output := output.write "This allocation matches pattern SSL_CTX.\n"
  if explain then
    output.write ("The first pointer points to what appears to be an " ++
      " SSL_METHOD structure.\n")
  else output

/-! ## ProcessImage

The constructor and `TagAllocations` of `ProcessImage<OffsetType>` (src/ProcessImage.h). -/

/-- One entry of `ThreadMap<Offset>`, as the constructor reads it. -/
structure ThreadInfo where
  _threadNum : Nat
  _stackBase : Nat
  _stackLimit : Nat
  deriving DecidableEq, Repr

/-- The arguments of one call of `VirtualMemoryPartition::ClaimRange`. -/
structure RangeClaim where
  start : Nat
  size : Nat
  label : String
  allowOverlap : Bool
  deriving DecidableEq, Repr

/-- The `Offset` subtraction `a - b`, for `Offset` values `a` and `b`. -/
def Offset.sub (sizeofOffset a b : Nat) : Nat :=
  (a + 2 ^ (8 * sizeofOffset) - b) % 2 ^ (8 * sizeofOffset)

/-- The loop of the constructor `ProcessImage(virtualAddressMap, threadMap)` over the thread
map: the partition and the text on `std::cerr` after it.  The class
`VirtualMemoryPartition` is not among the sources; its state type and its member function
`ClaimRange` are parameters. -/
def ProcessImage.claimStacks {Partition : Type} (sizeofOffset : Nat)
    (ClaimRange : Partition → Nat → Nat → String → Bool → Bool × Partition) :
    List ThreadInfo → Partition → String → Partition × String
  | [], _virtualMemoryPartition, cerr => (_virtualMemoryPartition, cerr)
  | it :: rest, _virtualMemoryPartition, cerr =>
    let claimed := ClaimRange _virtualMemoryPartition it._stackBase
      (Offset.sub sizeofOffset it._stackLimit it._stackBase) "stack" false
    if !claimed.1 then
      ProcessImage.claimStacks sizeofOffset ClaimRange rest claimed.2
        (cerr ++ "Warning: overlap found for stack range " ++ "for thread " ++
          toString it._threadNum ++ ".\n")
    else
      ProcessImage.claimStacks sizeofOffset ClaimRange rest claimed.2 cerr

/-- A partition that records the `ClaimRange` calls it receives, in order, and answers each
with `answer`. -/
def recordingClaimRange (answer : RangeClaim → Bool) (calls : List RangeClaim)
    (start size : Nat) (label : String) (allowOverlap : Bool) : Bool × List RangeClaim :=
  (answer ⟨start, size, label, allowOverlap⟩, calls ++ [⟨start, size, label, allowOverlap⟩])

/-- The tagger classes `ProcessImage::TagAllocations` instantiates. -/
inductive TaggerKind where
  | UnorderedMapOrSetAllocationsTagger
  | MapOrSetAllocationsTagger
  | DequeAllocationsTagger
  | ListAllocationsTagger
  | LongStringAllocationsTagger
  | VectorAllocationsTagger
  | COWStringAllocationsTagger
  | OpenSSLAllocationsTagger
  | PythonAllocationsTagger
  deriving DecidableEq, Repr

/-- Modelled from the spec: the class `Allocations::TaggerRunner` (Allocations/TaggerRunner.h)
is not among the sources.  Spec 4.8: it "holds an ordered list of registered Taggers". -/
structure TaggerRunner where
  taggers : List TaggerKind
  deriving DecidableEq, Repr

/-- Modelled from the spec: the constructor of `TaggerRunner`, with no tagger registered. -/
def TaggerRunner.new : TaggerRunner := { taggers := [] }

/-- Modelled from the spec: the method `RegisterTagger(tagger)`, which appends to the ordered
list. -/
def TaggerRunner.RegisterTagger (runner : TaggerRunner) (tagger : TaggerKind) : TaggerRunner :=
  { taggers := runner.taggers ++ [tagger] }

/-- Modelled from the spec: the taggers whose callback one phase of
`ResolveAllAllocationTags` invokes on one allocation, in order of invocation.  Spec 4.8: "for
each still-active tagger", over the ordered list of registered taggers. -/
def TaggerRunner.invoked (runner : TaggerRunner) (active : TaggerKind → Bool) :
    List TaggerKind :=
  runner.taggers.filter active

/-- The member function `ProcessImage::TagAllocations`, up to the call of
`ResolveAllAllocationTags`: the runner with its registered taggers. -/
def ProcessImage.TagAllocations : TaggerRunner :=
  let runner := TaggerRunner.new
  let runner := runner.RegisterTagger .UnorderedMapOrSetAllocationsTagger
  let runner := runner.RegisterTagger .MapOrSetAllocationsTagger
  let runner := runner.RegisterTagger .DequeAllocationsTagger
  let runner := runner.RegisterTagger .ListAllocationsTagger
  let runner := runner.RegisterTagger .LongStringAllocationsTagger
  let runner := runner.RegisterTagger .VectorAllocationsTagger
  let runner := runner.RegisterTagger .COWStringAllocationsTagger
  let runner := runner.RegisterTagger .OpenSSLAllocationsTagger
  let runner := runner.RegisterTagger .PythonAllocationsTagger
  runner

/-! ## Concrete describer and thread inputs used by the closed theorems -/

/-- An output object with nothing written, in decimal mode, that renders numbers with the
digits `0-9a-f` in hexadecimal mode. -/
def emptyOutput : Output :=
  { text := "", hexMode := false
    render := fun hexMode n => if hexMode then String.mk (Nat.toDigits 16 n) else toString n }

/-- The context holding `emptyOutput`. -/
def emptyContext : Context := { GetOutput := emptyOutput }

/-- Scenario S3 of the spec: a long string allocation at `0x40000000` of 208 bytes whose
payload is 200 bytes `h` followed by NUL bytes, fully mapped. -/
def s3Allocation : Allocation := { Address := 0x40000000, Size := 0xd0 }

/-- The address map of scenario S3. -/
def s3AddressMap : VirtualAddressMapBytes :=
  { FindMappedMemoryImage := fun a =>
      if a = 0x40000000 then (0x1000, fun j => if j < 200 then 'h' else Char.ofNat 0)
      else (0, fun _ => Char.ofNat 0) }

/-- A long string allocation whose payload is exactly 77 bytes `h`, fully mapped. -/
def exact77AddressMap : VirtualAddressMapBytes :=
  { FindMappedMemoryImage := fun a =>
      if a = 0x40000000 then (0x1000, fun j => if j < 77 then 'h' else Char.ofNat 0)
      else (0, fun _ => Char.ofNat 0) }

/-- A thread whose stack base lies above its stack limit. -/
def downwardThread : ThreadInfo :=
  { _threadNum := 1, _stackBase := 0x7ffd2000, _stackLimit := 0x7ffd0000 }

/-- A thread whose stack base lies below its stack limit. -/
def upwardThread : ThreadInfo :=
  { _threadNum := 2, _stackBase := 0x7ffc0000, _stackLimit := 0x7ffc8000 }

/-- The ellipsis markers: three full stops, or the single character U+2026. -/
def ellipsisMarkers : List String := ["...", "…"]

/-- Spec 4.9, "the first 77 bytes with an ellipsis marker": somewhere in `text` the bytes
`shown` are directly followed by an ellipsis marker. -/
def EllipsisFollows (text shown : String) : Prop :=
  ∃ marker ∈ ellipsisMarkers, (shown ++ marker).data <:+: text.data

instance (text shown : String) : Decidable (EllipsisFollows text shown) :=
  inferInstanceAs (Decidable (∃ marker ∈ ellipsisMarkers, (shown ++ marker).data <:+: text.data))

/-- The histories of a tag holder: `TagHolder.Reaches th later` says that `later` is obtained
from `th` by a sequence of `RegisterTag` and `TagAllocation` calls, the two operations that
change a tag holder. -/
inductive TagHolder.Reaches : TagHolder → TagHolder → Prop where
  | refl (th : TagHolder) : TagHolder.Reaches th th
  | register (th later : TagHolder) (name : String) :
      TagHolder.Reaches th later → TagHolder.Reaches th (later.RegisterTag name).2
  | tag (th later : TagHolder) (index tagIndex : Nat) :
      TagHolder.Reaches th later → TagHolder.Reaches th (later.TagAllocation index tagIndex)

/-! ## The tag holder -/

theorem TagHolder.TagAllocation_tags_length (th : TagHolder) (index tagIndex : Nat) :
    (th.TagAllocation index tagIndex).tags.length = th.tags.length := by
  unfold TagHolder.TagAllocation
  dsimp only
  split <;> simp

theorem TagHolder.GetTagIndex_TagAllocation_self (th : TagHolder) (index tagIndex : Nat)
    (hindex : index < th.tags.length) (h0 : th.GetTagIndex index = 0) :
    (th.TagAllocation index tagIndex).GetTagIndex index = tagIndex := by
  unfold TagHolder.TagAllocation
  rw [if_pos h0]
  simp [TagHolder.GetTagIndex, List.getD_eq_getElem?_getD, List.getElem?_set, hindex]

theorem TagHolder.GetTagIndex_TagAllocation_of_ne (th : TagHolder) (index tagIndex j : Nat)
    (hne : j ≠ index) :
    (th.TagAllocation index tagIndex).GetTagIndex j = th.GetTagIndex j := by
  unfold TagHolder.TagAllocation TagHolder.GetTagIndex
  dsimp only
  split
  · simp [List.getD_eq_getElem?_getD, List.getElem?_set, Ne.symm hne]
  · rfl

theorem TagHolder.GetTagIndex_TagAllocation_of_tagged (th : TagHolder) (index tagIndex j : Nat)
    (hj : th.GetTagIndex j ≠ 0) :
    (th.TagAllocation index tagIndex).GetTagIndex j = th.GetTagIndex j := by
  by_cases hne : j = index
  · subst hne
    simp [TagHolder.TagAllocation, hj]
    rfl
  · exact TagHolder.GetTagIndex_TagAllocation_of_ne th index tagIndex j hne

/-- The tag a freshly constructed tagger registers is not `0`. -/
theorem VectorAllocationsTagger.new_tagIndex_ne_zero (graph : Graph) (tagHolder : TagHolder) :
    (VectorAllocationsTagger.new graph tagHolder).1._tagIndex ≠ 0 := by
  simp [VectorAllocationsTagger.new, TagHolder.RegisterTag]

/-- Constructing a tagger leaves every tag and the call history of the tag holder as they
were. -/
theorem VectorAllocationsTagger.new_tags (graph : Graph) (tagHolder : TagHolder) :
    (VectorAllocationsTagger.new graph tagHolder).2.tags = tagHolder.tags ∧
    (VectorAllocationsTagger.new graph tagHolder).2.requests = tagHolder.requests := by
  simp [VectorAllocationsTagger.new, TagHolder.RegisterTag]

/-! ## The anchor path -/

theorem CheckVectorBodyAnchorIn.loop_flag (sizeofOffset : Nat) (t : VectorAllocationsTagger)
    (th : TagHolder) (bodyIndex bodyAddress bodyLimit : Nat) (anchors : List Nat) :
    (CheckVectorBodyAnchorIn.loop sizeofOffset t th bodyIndex bodyAddress bodyLimit anchors).1
        = true ↔
      ∃ a ∈ anchors, AnchorQualifies sizeofOffset t._addressMap bodyAddress bodyLimit a := by
  induction anchors with
  | nil => simp [CheckVectorBodyAnchorIn.loop]
  | cons anchor rest ih =>
    rw [CheckVectorBodyAnchorIn.loop]
    simp only [List.exists_mem_cons_iff, AnchorQualifies, VectorTriple]
    split_ifs with h1 h2 h3 h4
    · rw [ih]; constructor
      · intro h; exact Or.inr h
      · rintro (h | h)
        · omega
        · exact h
    · rw [ih]; constructor
      · intro h; exact Or.inr h
      · rintro (h | h)
        · exact absurd h.2.1 h2
        · exact h
    · rw [ih]; constructor
      · intro h; exact Or.inr h
      · rintro (h | h)
        · omega
        · exact h
    · rw [ih]; constructor
      · intro h; exact Or.inr h
      · rintro (h | h)
        · omega
        · exact h
    · simp only [true_iff]
      left
      push_neg at h2 h4
      omega

theorem CheckVectorBodyAnchorIn.loop_holder (sizeofOffset : Nat) (t : VectorAllocationsTagger)
    (th : TagHolder) (bodyIndex bodyAddress bodyLimit : Nat) (anchors : List Nat) :
    (CheckVectorBodyAnchorIn.loop sizeofOffset t th bodyIndex bodyAddress bodyLimit anchors).2 =
      if (CheckVectorBodyAnchorIn.loop sizeofOffset t th bodyIndex bodyAddress bodyLimit
            anchors).1 = true
      then th.TagAllocation bodyIndex t._tagIndex else th := by
  induction anchors with
  | nil => simp [CheckVectorBodyAnchorIn.loop]
  | cons anchor rest ih =>
    simp only [CheckVectorBodyAnchorIn.loop]
    split_ifs <;> simp_all

theorem CheckVectorBodyAnchorIn_flag (sizeofOffset : Nat) (t : VectorAllocationsTagger)
    (th : TagHolder) (bodyIndex : Nat) (bodyAllocation : Allocation)
    (anchors : Option (List Nat)) :
    (CheckVectorBodyAnchorIn sizeofOffset t th bodyIndex bodyAllocation anchors).1 = true ↔
      ∃ a ∈ anchors.getD [], AnchorQualifies sizeofOffset t._addressMap bodyAllocation.Address
        ((bodyAllocation.Address + bodyAllocation.Size) % 2 ^ (8 * sizeofOffset)) a := by
  cases anchors with
  | none => simp [CheckVectorBodyAnchorIn]
  | some l => simpa [CheckVectorBodyAnchorIn] using CheckVectorBodyAnchorIn.loop_flag ..

theorem CheckVectorBodyAnchorIn_holder (sizeofOffset : Nat) (t : VectorAllocationsTagger)
    (th : TagHolder) (bodyIndex : Nat) (bodyAllocation : Allocation)
    (anchors : Option (List Nat)) :
    (CheckVectorBodyAnchorIn sizeofOffset t th bodyIndex bodyAllocation anchors).2 =
      if (CheckVectorBodyAnchorIn sizeofOffset t th bodyIndex bodyAllocation anchors).1 = true
      then th.TagAllocation bodyIndex t._tagIndex else th := by
  cases anchors with
  | none => simp [CheckVectorBodyAnchorIn]
  | some l => simpa [CheckVectorBodyAnchorIn] using CheckVectorBodyAnchorIn.loop_holder ..

/-- The anchor loop reads the tagger only through `_addressMap` and `_tagIndex`. -/
theorem CheckVectorBodyAnchorIn.loop_congr (sizeofOffset : Nat) (t u : VectorAllocationsTagger)
    (hmap : u._addressMap = t._addressMap) (htag : u._tagIndex = t._tagIndex)
    (th : TagHolder) (bodyIndex bodyAddress bodyLimit : Nat) (anchors : List Nat) :
    CheckVectorBodyAnchorIn.loop sizeofOffset u th bodyIndex bodyAddress bodyLimit anchors =
      CheckVectorBodyAnchorIn.loop sizeofOffset t th bodyIndex bodyAddress bodyLimit anchors := by
  induction anchors with
  | nil => rfl
  | cons anchor rest ih =>
    simp only [CheckVectorBodyAnchorIn.loop, hmap, htag, ih]

theorem CheckVectorBodyAnchorIn_congr (sizeofOffset : Nat) (t u : VectorAllocationsTagger)
    (hmap : u._addressMap = t._addressMap) (htag : u._tagIndex = t._tagIndex)
    (th : TagHolder) (bodyIndex : Nat) (bodyAllocation : Allocation)
    (anchors : Option (List Nat)) :
    CheckVectorBodyAnchorIn sizeofOffset u th bodyIndex bodyAllocation anchors =
      CheckVectorBodyAnchorIn sizeofOffset t th bodyIndex bodyAllocation anchors := by
  cases anchors with
  | none => rfl
  | some l =>
    simp only [CheckVectorBodyAnchorIn]
    exact CheckVectorBodyAnchorIn.loop_congr sizeofOffset t u hmap htag ..

/-- The tag holder after `TagFromAllocation` in the weak phase on an untagged allocation:
one `TagAllocation` call if an anchor of the static or of the stack list qualifies, no call
otherwise. -/
theorem TagFromAllocation_weak_holder (sizeofOffset : Nat) (t : VectorAllocationsTagger)
    (th : TagHolder) (index : Nat) (allocation : Allocation)
    (huntagged : th.GetTagIndex index = 0) :
    ((∃ a, (a ∈ (t._graph.GetStaticAnchors index).getD [] ∨
                a ∈ (t._graph.GetStackAnchors index).getD []) ∧
              AnchorQualifies sizeofOffset t._addressMap allocation.Address
                ((allocation.Address + allocation.Size) % 2 ^ (8 * sizeofOffset)) a) →
      (TagFromAllocation sizeofOffset t th index .WEAK_CHECK allocation).2 =
        th.TagAllocation index t._tagIndex) ∧
    ((¬ ∃ a, (a ∈ (t._graph.GetStaticAnchors index).getD [] ∨
                a ∈ (t._graph.GetStackAnchors index).getD []) ∧
              AnchorQualifies sizeofOffset t._addressMap allocation.Address
                ((allocation.Address + allocation.Size) % 2 ^ (8 * sizeofOffset)) a) →
      (TagFromAllocation sizeofOffset t th index .WEAK_CHECK allocation).2 = th) := by
  have hsf := CheckVectorBodyAnchorIn_flag sizeofOffset t th index allocation
    (t._graph.GetStaticAnchors index)
  have hsh := CheckVectorBodyAnchorIn_holder sizeofOffset t th index allocation
    (t._graph.GetStaticAnchors index)
  have hkf := CheckVectorBodyAnchorIn_flag sizeofOffset t th index allocation
    (t._graph.GetStackAnchors index)
  have hkh := CheckVectorBodyAnchorIn_holder sizeofOffset t th index allocation
    (t._graph.GetStackAnchors index)
  unfold TagFromAllocation
  simp only [huntagged, ne_eq, not_true_eq_false, ↓reduceIte]
  by_cases hs : (CheckVectorBodyAnchorIn sizeofOffset t th index allocation
      (t._graph.GetStaticAnchors index)).1 = true
  · rw [if_pos hs] at hsh
    obtain ⟨a, ha, hq⟩ := hsf.1 hs
    refine ⟨fun _ => ?_, fun hno => absurd ⟨a, Or.inl ha, hq⟩ hno⟩
    simp [hs, hsh]
  · rw [if_neg hs] at hsh
    simp only [Bool.not_eq_true] at hs
    simp only [hs, hsh, Bool.not_false, ↓reduceIte]
    by_cases hkt : (CheckVectorBodyAnchorIn sizeofOffset t th index allocation
      (t._graph.GetStackAnchors index)).1 = true
    · rw [if_pos hkt] at hkh
      obtain ⟨a, ha, hq⟩ := hkf.1 hkt
      exact ⟨fun _ => hkh, fun hno => absurd ⟨a, Or.inr ha, hq⟩ hno⟩
    · rw [if_neg hkt] at hkh
      refine ⟨?_, fun _ => hkh⟩
      rintro ⟨a, ha | ha, hq⟩
      · have := hsf.2 ⟨a, ha, hq⟩
        simp [hs] at this
      · exact absurd (hkf.2 ⟨a, ha, hq⟩) hkt

/-! ## The embedded scan: one iteration -/

theorem TagHolder.TagAllocation_ne (th : TagHolder) (index tagIndex : Nat) :
    th.TagAllocation index tagIndex ≠ th := by
  intro h
  have hr := congrArg (fun s => s.requests.length) h
  simp [TagHolder.TagAllocation] at hr

theorem TagHolder.GetTagIndex_TagAllocation_cases (th : TagHolder) (index tagIndex j : Nat) :
    (th.TagAllocation index tagIndex).GetTagIndex j = th.GetTagIndex j ∨
      (j = index ∧ th.GetTagIndex j = 0 ∧
        (th.TagAllocation index tagIndex).GetTagIndex j = tagIndex) := by
  by_cases hne : j = index
  · subst hne
    by_cases h0 : th.GetTagIndex j = 0
    · by_cases hlen : j < th.tags.length
      · exact Or.inr ⟨rfl, h0, TagHolder.GetTagIndex_TagAllocation_self th j tagIndex hlen h0⟩
      · left
        unfold TagHolder.TagAllocation TagHolder.GetTagIndex
        simp only [List.getD_eq_getElem?_getD]
        split
        · rw [List.set_eq_of_length_le (by omega)]
        · rfl
    · exact Or.inl (TagHolder.GetTagIndex_TagAllocation_of_tagged th j tagIndex j h0)
  · exact Or.inl (TagHolder.GetTagIndex_TagAllocation_of_ne th index tagIndex j hne)

theorem CheckEmbeddedVectors.body_of_accepts (sizeofOffset : Nat) (t : VectorAllocationsTagger)
    (contiguousImage : ContiguousImage) (unresolvedOutgoing : Nat → Nat)
    (check : Nat) (th : TagHolder)
    (h : CheckEmbeddedVectors.Accepts sizeofOffset t contiguousImage unresolvedOutgoing check th) :
    CheckEmbeddedVectors.body sizeofOffset t contiguousImage unresolvedOutgoing check th =
      (check + 2, th.TagAllocation (unresolvedOutgoing check) t._tagIndex) := by
  obtain ⟨h1, h2, h3, h4, h5, h6, h7⟩ := h
  unfold CheckEmbeddedVectors.body
  simp only [h1, h2, ne_eq, not_true_eq_false, ↓reduceIte, h3]
  rw [if_neg (by omega), if_neg (by omega)]

theorem CheckEmbeddedVectors.body_of_not_accepts (sizeofOffset : Nat)
    (t : VectorAllocationsTagger) (contiguousImage : ContiguousImage)
    (unresolvedOutgoing : Nat → Nat) (check : Nat) (th : TagHolder)
    (h : ¬ CheckEmbeddedVectors.Accepts sizeofOffset t contiguousImage unresolvedOutgoing
      check th) :
    CheckEmbeddedVectors.body sizeofOffset t contiguousImage unresolvedOutgoing check th =
      (check, th) := by
  unfold CheckEmbeddedVectors.body
  dsimp only
  split_ifs with h1 h2 h3 h4 h5
  · rfl
  · rfl
  · rfl
  · rfl
  · rfl
  · exfalso
    apply h
    refine ⟨h1, ?_, ?_⟩
    · simpa using h2
    · unfold VectorTriple
      push_neg at h3 h5
      omega

theorem CheckEmbeddedVectors.body_holder_ne_iff (sizeofOffset : Nat)
    (t : VectorAllocationsTagger) (contiguousImage : ContiguousImage)
    (unresolvedOutgoing : Nat → Nat) (check : Nat) (th : TagHolder) :
    (CheckEmbeddedVectors.body sizeofOffset t contiguousImage unresolvedOutgoing check th).2 ≠ th
      ↔ CheckEmbeddedVectors.Accepts sizeofOffset t contiguousImage unresolvedOutgoing
          check th := by
  by_cases h : CheckEmbeddedVectors.Accepts sizeofOffset t contiguousImage unresolvedOutgoing
      check th
  · rw [CheckEmbeddedVectors.body_of_accepts _ _ _ _ _ _ h]
    simp only [h, iff_true]
    exact TagHolder.TagAllocation_ne _ _ _
  · rw [CheckEmbeddedVectors.body_of_not_accepts _ _ _ _ _ _ h]
    simp [h]

/-! ## The embedded scan: the loop -/

/-- The loop never runs out of fuel: any two amounts of fuel that cover the words left up to
`offsetLimit` give the same result. -/
theorem CheckEmbeddedVectors.loop_fuel (sizeofOffset : Nat) (t : VectorAllocationsTagger)
    (contiguousImage : ContiguousImage) (unresolvedOutgoing : Nat → Nat) (offsetLimit : Int)
    (fuel fuel' check : Nat) (th : TagHolder)
    (hfuel : offsetLimit ≤ (check : Int) + fuel) (hfuel' : offsetLimit ≤ (check : Int) + fuel') :
    CheckEmbeddedVectors.loop sizeofOffset t contiguousImage unresolvedOutgoing offsetLimit
        fuel check th =
      CheckEmbeddedVectors.loop sizeofOffset t contiguousImage unresolvedOutgoing offsetLimit
        fuel' check th := by
  induction fuel generalizing fuel' check th with
  | zero =>
    cases fuel' with
    | zero => rfl
    | succ m =>
      simp only [CheckEmbeddedVectors.loop]
      rw [if_neg]
      simp only [Nat.cast_zero, add_zero] at hfuel
      omega
  | succ n ih =>
    cases fuel' with
    | zero =>
      simp only [CheckEmbeddedVectors.loop]
      rw [if_neg]
      simp only [Nat.cast_zero, add_zero] at hfuel'
      omega
    | succ m =>
      simp only [CheckEmbeddedVectors.loop]
      split_ifs with hlt
      · by_cases ha : CheckEmbeddedVectors.Accepts sizeofOffset t contiguousImage
          unresolvedOutgoing check th
        · rw [CheckEmbeddedVectors.body_of_accepts _ _ _ _ _ _ ha]
          apply ih <;> push_cast at * <;> omega
        · rw [CheckEmbeddedVectors.body_of_not_accepts _ _ _ _ _ _ ha]
          apply ih <;> push_cast at * <;> omega
      · rfl

/-- The fuel `CheckEmbeddedVectors` passes is enough: the loop started with any larger
amount of fuel gives the same tag holder. -/
theorem CheckEmbeddedVectors_fuel (sizeofOffset : Nat) (t : VectorAllocationsTagger)
    (th : TagHolder) (contiguousImage : ContiguousImage) (unresolvedOutgoing : Nat → Nat)
    (fuel : Nat) (hfuel : contiguousImage.numOffsets ≤ fuel) :
    CheckEmbeddedVectors.loop sizeofOffset t contiguousImage unresolvedOutgoing
        (contiguousImage.OffsetLimit - 2) fuel 0 th =
      CheckEmbeddedVectors sizeofOffset t th contiguousImage unresolvedOutgoing := by
  unfold CheckEmbeddedVectors
  apply CheckEmbeddedVectors.loop_fuel
  · simp only [ContiguousImage.OffsetLimit]
    push_cast
    omega
  · simp only [ContiguousImage.OffsetLimit]
    push_cast
    omega

/-- The result of the loop is the tag holder its last iteration hands back. -/
theorem CheckEmbeddedVectors.loop_eq_last (sizeofOffset : Nat) (t : VectorAllocationsTagger)
    (contiguousImage : ContiguousImage) (unresolvedOutgoing : Nat → Nat) (offsetLimit : Int)
    (fuel check : Nat) (th : TagHolder) :
    CheckEmbeddedVectors.loop sizeofOffset t contiguousImage unresolvedOutgoing offsetLimit
        fuel check th =
      (((CheckEmbeddedVectors.iterations sizeofOffset t contiguousImage unresolvedOutgoing
          offsetLimit fuel check th).getLast?).map
        (fun p => (CheckEmbeddedVectors.body sizeofOffset t contiguousImage unresolvedOutgoing
          p.1 p.2).2)).getD th := by
  induction fuel generalizing check th with
  | zero => rfl
  | succ n ih =>
    simp only [CheckEmbeddedVectors.loop, CheckEmbeddedVectors.iterations]
    split_ifs with hlt
    · rw [ih, List.getLast?_cons]
      cases hl : (CheckEmbeddedVectors.iterations sizeofOffset t contiguousImage
          unresolvedOutgoing offsetLimit n
          ((CheckEmbeddedVectors.body sizeofOffset t contiguousImage unresolvedOutgoing
            check th).1 + 1)
          (CheckEmbeddedVectors.body sizeofOffset t contiguousImage unresolvedOutgoing
            check th).2).getLast? with
      | none => simp
      | some p => simp
    · rfl

/-- Every iteration starts at or after the initial loop pointer and before `offsetLimit`. -/
theorem CheckEmbeddedVectors.iterations_bounds (sizeofOffset : Nat)
    (t : VectorAllocationsTagger) (contiguousImage : ContiguousImage)
    (unresolvedOutgoing : Nat → Nat) (offsetLimit : Int) (fuel check : Nat) (th : TagHolder)
    (p : Nat × TagHolder)
    (hp : p ∈ CheckEmbeddedVectors.iterations sizeofOffset t contiguousImage unresolvedOutgoing
      offsetLimit fuel check th) :
    check ≤ p.1 ∧ (p.1 : Int) < offsetLimit := by
  induction fuel generalizing check th with
  | zero => simp [CheckEmbeddedVectors.iterations] at hp
  | succ n ih =>
    simp only [CheckEmbeddedVectors.iterations] at hp
    split_ifs at hp with hlt
    · rcases List.mem_cons.1 hp with h | h
      · subst h
        exact ⟨le_refl _, hlt⟩
      · have := ih _ _ h
        by_cases ha : CheckEmbeddedVectors.Accepts sizeofOffset t contiguousImage
            unresolvedOutgoing check th
        · rw [CheckEmbeddedVectors.body_of_accepts _ _ _ _ _ _ ha] at this
          exact ⟨by omega, this.2⟩
        · rw [CheckEmbeddedVectors.body_of_not_accepts _ _ _ _ _ _ ha] at this
          exact ⟨by omega, this.2⟩
    · simp at hp

/-- The iterations come in increasing order of loop pointer, and an iteration that accepts
its triple is followed only by iterations at least three words further on. -/
theorem CheckEmbeddedVectors.iterations_pairwise (sizeofOffset : Nat)
    (t : VectorAllocationsTagger) (contiguousImage : ContiguousImage)
    (unresolvedOutgoing : Nat → Nat) (offsetLimit : Int) (fuel check : Nat) (th : TagHolder) :
    (CheckEmbeddedVectors.iterations sizeofOffset t contiguousImage unresolvedOutgoing
      offsetLimit fuel check th).Pairwise
      (fun p q => p.1 < q.1 ∧
        (CheckEmbeddedVectors.Accepts sizeofOffset t contiguousImage unresolvedOutgoing p.1 p.2
          → p.1 + 3 ≤ q.1)) := by
  induction fuel generalizing check th with
  | zero => simp [CheckEmbeddedVectors.iterations]
  | succ n ih =>
    simp only [CheckEmbeddedVectors.iterations]
    split_ifs with hlt
    · refine List.Pairwise.cons ?_ (ih _ _)
      intro q hq
      have hb := CheckEmbeddedVectors.iterations_bounds _ _ _ _ _ _ _ _ q hq
      by_cases ha : CheckEmbeddedVectors.Accepts sizeofOffset t contiguousImage
          unresolvedOutgoing check th
      · rw [CheckEmbeddedVectors.body_of_accepts _ _ _ _ _ _ ha] at hb
        exact ⟨by omega, fun _ => by omega⟩
      · rw [CheckEmbeddedVectors.body_of_not_accepts _ _ _ _ _ _ ha] at hb
        exact ⟨by omega, fun h => absurd h ha⟩
    · exact List.Pairwise.nil

/-- Any two iterations of the loop are the same iteration or one precedes the other in the
order of `CheckEmbeddedVectors.iterations_pairwise`. -/
theorem CheckEmbeddedVectors.iterations_mem_rel (sizeofOffset : Nat)
    (t : VectorAllocationsTagger) (contiguousImage : ContiguousImage)
    (unresolvedOutgoing : Nat → Nat) (offsetLimit : Int) (fuel check : Nat) (th : TagHolder)
    (p q : Nat × TagHolder)
    (hp : p ∈ CheckEmbeddedVectors.iterations sizeofOffset t contiguousImage unresolvedOutgoing
      offsetLimit fuel check th)
    (hq : q ∈ CheckEmbeddedVectors.iterations sizeofOffset t contiguousImage unresolvedOutgoing
      offsetLimit fuel check th)
    (hpq : p.1 < q.1) :
    CheckEmbeddedVectors.Accepts sizeofOffset t contiguousImage unresolvedOutgoing p.1 p.2 →
      p.1 + 3 ≤ q.1 := by
  have hpair := CheckEmbeddedVectors.iterations_pairwise sizeofOffset t contiguousImage
    unresolvedOutgoing offsetLimit fuel check th
  have hsymm := List.Pairwise.imp
    (S := fun p q : Nat × TagHolder =>
      (p.1 < q.1 ∧ (CheckEmbeddedVectors.Accepts sizeofOffset t contiguousImage
          unresolvedOutgoing p.1 p.2 → p.1 + 3 ≤ q.1)) ∨
      (q.1 < p.1 ∧ (CheckEmbeddedVectors.Accepts sizeofOffset t contiguousImage
          unresolvedOutgoing q.1 q.2 → q.1 + 3 ≤ p.1)))
    (fun {a b} h => Or.inl h) hpair
  have hne : p ≠ q := by
    intro h
    rw [h] at hpq
    exact lt_irrefl _ hpq
  rcases List.Pairwise.forall (fun a b h => h.symm) hsymm hp hq hne with h | h
  · exact h.2
  · omega

/-- Soundness of the loop: an allocation whose tag the loop changes was untagged, now carries
the tagger's tag, and is named by the outgoing slot of a word at which a vector triple for it
starts. -/
theorem CheckEmbeddedVectors.loop_sound (sizeofOffset : Nat) (t : VectorAllocationsTagger)
    (contiguousImage : ContiguousImage) (unresolvedOutgoing : Nat → Nat) (offsetLimit : Int)
    (fuel check : Nat) (th : TagHolder) (bodyIndex : Nat)
    (hchanged : (CheckEmbeddedVectors.loop sizeofOffset t contiguousImage unresolvedOutgoing
      offsetLimit fuel check th).GetTagIndex bodyIndex ≠ th.GetTagIndex bodyIndex) :
    th.GetTagIndex bodyIndex = 0 ∧
    (CheckEmbeddedVectors.loop sizeofOffset t contiguousImage unresolvedOutgoing
      offsetLimit fuel check th).GetTagIndex bodyIndex = t._tagIndex ∧
    ∃ k, check ≤ k ∧ (k : Int) < offsetLimit ∧ unresolvedOutgoing k = bodyIndex ∧
      bodyIndex ≠ t._numAllocations ∧
      VectorTriple (t._finder.AllocationAt bodyIndex).Address
        (((t._finder.AllocationAt bodyIndex).Address +
          (t._finder.AllocationAt bodyIndex).Size) % 2 ^ (8 * sizeofOffset))
        (contiguousImage.offsetAt k) (contiguousImage.offsetAt (k + 1))
        (contiguousImage.offsetAt (k + 2)) := by
  induction fuel generalizing check th with
  | zero => exact absurd rfl hchanged
  | succ n ih =>
    simp only [CheckEmbeddedVectors.loop] at hchanged ⊢
    split_ifs at hchanged ⊢ with hlt
    · by_cases ha : CheckEmbeddedVectors.Accepts sizeofOffset t contiguousImage
          unresolvedOutgoing check th
      · rw [CheckEmbeddedVectors.body_of_accepts _ _ _ _ _ _ ha] at hchanged ⊢
        dsimp only at hchanged ⊢
        by_cases hlater : (CheckEmbeddedVectors.loop sizeofOffset t contiguousImage
            unresolvedOutgoing offsetLimit n (check + 2 + 1)
            (th.TagAllocation (unresolvedOutgoing check) t._tagIndex)).GetTagIndex bodyIndex =
            (th.TagAllocation (unresolvedOutgoing check) t._tagIndex).GetTagIndex bodyIndex
        · rw [hlater] at hchanged ⊢
          rcases TagHolder.GetTagIndex_TagAllocation_cases th (unresolvedOutgoing check)
            t._tagIndex bodyIndex with h | ⟨hb, h0, hT⟩
          · exact absurd h hchanged
          · refine ⟨h0, hT, check, le_refl _, hlt, hb.symm, ?_, ?_⟩
            · rw [hb]; exact ha.1
            · rw [hb]; exact ha.2.2
        · obtain ⟨h0, hT, k, hk, hklt, hout, hN, htriple⟩ := ih _ _ hlater
          refine ⟨?_, hT, k, by omega, hklt, hout, hN, htriple⟩
          by_contra hne
          rw [TagHolder.GetTagIndex_TagAllocation_of_tagged _ _ _ _ hne] at h0
          exact hne h0
      · rw [CheckEmbeddedVectors.body_of_not_accepts _ _ _ _ _ _ ha] at hchanged ⊢
        obtain ⟨h0, hT, k, hk, hklt, hout, hN, htriple⟩ := ih _ _ hchanged
        exact ⟨h0, hT, k, by omega, hklt, hout, hN, htriple⟩
    · exact absurd rfl hchanged

/-- An allocation that carries the tagger's tag keeps it through the loop. -/
theorem CheckEmbeddedVectors.loop_keeps_tag (sizeofOffset : Nat) (t : VectorAllocationsTagger)
    (contiguousImage : ContiguousImage) (unresolvedOutgoing : Nat → Nat) (offsetLimit : Int)
    (fuel check : Nat) (th : TagHolder) (bodyIndex : Nat)
    (htagged : th.GetTagIndex bodyIndex = t._tagIndex) :
    (CheckEmbeddedVectors.loop sizeofOffset t contiguousImage unresolvedOutgoing
      offsetLimit fuel check th).GetTagIndex bodyIndex = t._tagIndex := by
  by_contra hne
  have hchanged : (CheckEmbeddedVectors.loop sizeofOffset t contiguousImage unresolvedOutgoing
      offsetLimit fuel check th).GetTagIndex bodyIndex ≠ th.GetTagIndex bodyIndex := by
    rw [htagged]; exact hne
  exact hne (CheckEmbeddedVectors.loop_sound _ _ _ _ _ _ _ _ _ hchanged).2.1

/-- The `TagAllocation` calls of the loop: each is made for an allocation whose current tag
is `0`, with the tagger's tag. -/
theorem CheckEmbeddedVectors.loop_requests (sizeofOffset : Nat) (t : VectorAllocationsTagger)
    (contiguousImage : ContiguousImage) (unresolvedOutgoing : Nat → Nat) (offsetLimit : Int)
    (fuel check : Nat) (th : TagHolder) :
    ∃ calls : List TagRequest,
      (CheckEmbeddedVectors.loop sizeofOffset t contiguousImage unresolvedOutgoing
        offsetLimit fuel check th).requests = th.requests ++ calls ∧
      ∀ r ∈ calls, r.current = 0 ∧ r.tagIndex = t._tagIndex := by
  induction fuel generalizing check th with
  | zero => exact ⟨[], by simp [CheckEmbeddedVectors.loop], by simp⟩
  | succ n ih =>
    simp only [CheckEmbeddedVectors.loop]
    split_ifs with hlt
    · by_cases ha : CheckEmbeddedVectors.Accepts sizeofOffset t contiguousImage
          unresolvedOutgoing check th
      · rw [CheckEmbeddedVectors.body_of_accepts _ _ _ _ _ _ ha]
        obtain ⟨calls, hcalls, hall⟩ := ih (check + 2 + 1)
          (th.TagAllocation (unresolvedOutgoing check) t._tagIndex)
        refine ⟨⟨unresolvedOutgoing check, t._tagIndex,
          th.GetTagIndex (unresolvedOutgoing check)⟩ :: calls, ?_, ?_⟩
        · rw [hcalls]
          simp [TagHolder.TagAllocation]
        · intro r hr
          rcases List.mem_cons.1 hr with h | h
          · subst h
            exact ⟨ha.2.1, rfl⟩
          · exact hall r h
      · rw [CheckEmbeddedVectors.body_of_not_accepts _ _ _ _ _ _ ha]
        exact ih _ _
    · exact ⟨[], by simp, by simp⟩

/-- Completeness of the loop at a word it does not skip: if a vector triple for the
allocation named by outgoing slot `k` starts at word `k`, the allocation is in the backing
array and is untagged or already carries the tagger's tag, and `k` is not one of the two
words following a word at which the loop accepts a triple, then the allocation carries the
tagger's tag after the loop. -/
theorem CheckEmbeddedVectors.loop_complete (sizeofOffset : Nat) (t : VectorAllocationsTagger)
    (contiguousImage : ContiguousImage) (unresolvedOutgoing : Nat → Nat) (offsetLimit : Int)
    (fuel check : Nat) (th : TagHolder) (k : Nat)
    (hfuel : offsetLimit ≤ (check : Int) + fuel) (hcheck : check ≤ k)
    (hk : (k : Int) < offsetLimit)
    (hN : unresolvedOutgoing k ≠ t._numAllocations)
    (hlen : unresolvedOutgoing k < th.tags.length)
    (htag : th.GetTagIndex (unresolvedOutgoing k) = 0 ∨
      th.GetTagIndex (unresolvedOutgoing k) = t._tagIndex)
    (htriple : VectorTriple (t._finder.AllocationAt (unresolvedOutgoing k)).Address
        (((t._finder.AllocationAt (unresolvedOutgoing k)).Address +
          (t._finder.AllocationAt (unresolvedOutgoing k)).Size) % 2 ^ (8 * sizeofOffset))
        (contiguousImage.offsetAt k) (contiguousImage.offsetAt (k + 1))
        (contiguousImage.offsetAt (k + 2)))
    (hskip : ∀ p ∈ CheckEmbeddedVectors.iterations sizeofOffset t contiguousImage
        unresolvedOutgoing offsetLimit fuel check th,
      CheckEmbeddedVectors.Accepts sizeofOffset t contiguousImage unresolvedOutgoing p.1 p.2 →
        k ≠ p.1 + 1 ∧ k ≠ p.1 + 2) :
    (CheckEmbeddedVectors.loop sizeofOffset t contiguousImage unresolvedOutgoing
      offsetLimit fuel check th).GetTagIndex (unresolvedOutgoing k) = t._tagIndex := by
  induction fuel generalizing check th with
  | zero =>
    simp only [Nat.cast_zero, add_zero] at hfuel
    omega
  | succ n ih =>
    have hlt : (check : Int) < offsetLimit := by omega
    simp only [CheckEmbeddedVectors.loop, if_pos hlt]
    simp only [CheckEmbeddedVectors.iterations, if_pos hlt, List.mem_cons] at hskip
    by_cases ha : CheckEmbeddedVectors.Accepts sizeofOffset t contiguousImage
        unresolvedOutgoing check th
    · have hbody := CheckEmbeddedVectors.body_of_accepts _ _ _ _ _ _ ha
      rw [hbody] at hskip ⊢
      dsimp only at hskip ⊢
      by_cases hck : check = k
      · subst hck
        apply CheckEmbeddedVectors.loop_keeps_tag
        exact TagHolder.GetTagIndex_TagAllocation_self th _ _ hlen ha.2.1
      · have hgap := hskip (check, th) (Or.inl rfl) ha
        dsimp only at hgap
        apply ih
        · push_cast at hfuel ⊢; omega
        · omega
        · rw [TagHolder.TagAllocation_tags_length]; exact hlen
        · rcases TagHolder.GetTagIndex_TagAllocation_cases th (unresolvedOutgoing check)
            t._tagIndex (unresolvedOutgoing k) with h | ⟨-, -, h⟩
          · rw [h]; exact htag
          · exact Or.inr h
        · intro p hp
          exact hskip p (Or.inr hp)
    · have hbody := CheckEmbeddedVectors.body_of_not_accepts _ _ _ _ _ _ ha
      rw [hbody] at hskip ⊢
      dsimp only at hskip ⊢
      by_cases hck : check = k
      · subst hck
        apply CheckEmbeddedVectors.loop_keeps_tag
        rcases htag with h0 | hT
        · exact absurd ⟨hN, h0, htriple⟩ ha
        · exact hT
      · apply ih
        · push_cast at hfuel ⊢; omega
        · omega
        · exact hlen
        · exact htag
        · intro p hp
          exact hskip p (Or.inr hp)

/-- What a change of tag by `TagFromReferenced` in the weak phase implies: the allocation was
untagged, now carries the tagger's tag, and a vector triple for it starts at a word of the
image whose outgoing slot names it. -/
theorem TagFromReferenced_weak_changed (sizeofOffset : Nat) (t : VectorAllocationsTagger)
    (th : TagHolder) (contiguousImage : ContiguousImage) (allocation : Allocation)
    (unresolvedOutgoing : Nat → Nat) (bodyIndex : Nat)
    (hchanged : (TagFromReferenced sizeofOffset t th contiguousImage .WEAK_CHECK allocation
      unresolvedOutgoing).2.GetTagIndex bodyIndex ≠ th.GetTagIndex bodyIndex) :
    th.GetTagIndex bodyIndex = 0 ∧
    (TagFromReferenced sizeofOffset t th contiguousImage .WEAK_CHECK allocation
      unresolvedOutgoing).2.GetTagIndex bodyIndex = t._tagIndex ∧
    ∃ k, k + 2 < contiguousImage.numOffsets ∧ unresolvedOutgoing k = bodyIndex ∧
      bodyIndex ≠ t._numAllocations ∧
      VectorTriple (t._finder.AllocationAt bodyIndex).Address
        (((t._finder.AllocationAt bodyIndex).Address +
          (t._finder.AllocationAt bodyIndex).Size) % 2 ^ (8 * sizeofOffset))
        (contiguousImage.offsetAt k) (contiguousImage.offsetAt (k + 1))
        (contiguousImage.offsetAt (k + 2)) := by
  obtain ⟨h0, hT, k, -, hk, hout, hN, htriple⟩ :=
    CheckEmbeddedVectors.loop_sound sizeofOffset t contiguousImage unresolvedOutgoing _ _ _ _ _
      hchanged
  refine ⟨h0, hT, k, ?_, hout, hN, htriple⟩
  simp only [ContiguousImage.OffsetLimit] at hk
  omega

/-! ## Claims -/

/-- C1. Anchor path, both directions.  For an untagged allocation at an index of the tag
holder, and a tagger whose registered tag is not `0`: after
`TagFromAllocation(index, WEAK_CHECK, allocation)` the allocation carries the "vector body"
tag if and only if some anchor address of its static or of its stack anchor list has at
least `3 * sizeof(Offset)` bytes mapped and the three words read there satisfy the five
conditions of the vector triple, the body limit being `address + size` as the code computes
it in `Offset` arithmetic; when `address + size` does not overflow this is the exact sum.
If every such anchor has fewer than three words mapped or `capacityLimit < useLimit`, the
allocation stays untagged; and the call does not depend on the register anchors. -/
theorem TagFromAllocation_weak_tagged_iff (sizeofOffset : Nat) (t : VectorAllocationsTagger)
    (th : TagHolder) (index : Nat) (allocation : Allocation)
    (hindex : index < th.tags.length) (htag : t._tagIndex ≠ 0)
    (huntagged : th.GetTagIndex index = 0) :
    ((TagFromAllocation sizeofOffset t th index .WEAK_CHECK allocation).2.GetTagIndex index
        = t._tagIndex ↔
      ∃ a, (a ∈ (t._graph.GetStaticAnchors index).getD [] ∨
            a ∈ (t._graph.GetStackAnchors index).getD []) ∧
        AnchorQualifies sizeofOffset t._addressMap allocation.Address
          ((allocation.Address + allocation.Size) % 2 ^ (8 * sizeofOffset)) a) ∧
    (allocation.Address + allocation.Size < 2 ^ (8 * sizeofOffset) →
      ((TagFromAllocation sizeofOffset t th index .WEAK_CHECK allocation).2.GetTagIndex index
          = t._tagIndex ↔
        ∃ a, (a ∈ (t._graph.GetStaticAnchors index).getD [] ∨
              a ∈ (t._graph.GetStackAnchors index).getD []) ∧
          AnchorQualifies sizeofOffset t._addressMap allocation.Address
            (allocation.Address + allocation.Size) a)) ∧
    ((∀ a, (a ∈ (t._graph.GetStaticAnchors index).getD [] ∨
            a ∈ (t._graph.GetStackAnchors index).getD []) →
          (t._addressMap.FindMappedMemoryImage a).1 < 3 * sizeofOffset ∨
          (t._addressMap.FindMappedMemoryImage a).2 2 <
            (t._addressMap.FindMappedMemoryImage a).2 1) →
      (TagFromAllocation sizeofOffset t th index .WEAK_CHECK allocation).2.GetTagIndex index
        = 0) ∧
    (∀ registerAnchors : Nat → Option (List Nat),
      TagFromAllocation sizeofOffset
          { t with _graph := { t._graph with GetRegisterAnchors := registerAnchors } }
          th index .WEAK_CHECK allocation =
        TagFromAllocation sizeofOffset t th index .WEAK_CHECK allocation) := by
  have hholder := TagFromAllocation_weak_holder sizeofOffset t th index allocation huntagged
  have hiff : (TagFromAllocation sizeofOffset t th index .WEAK_CHECK allocation).2.GetTagIndex
        index = t._tagIndex ↔
      ∃ a, (a ∈ (t._graph.GetStaticAnchors index).getD [] ∨
            a ∈ (t._graph.GetStackAnchors index).getD []) ∧
        AnchorQualifies sizeofOffset t._addressMap allocation.Address
          ((allocation.Address + allocation.Size) % 2 ^ (8 * sizeofOffset)) a := by
    constructor
    · intro h
      by_contra hno
      rw [hholder.2 hno, huntagged] at h
      exact htag h.symm
    · intro h
      rw [hholder.1 h]
      exact TagHolder.GetTagIndex_TagAllocation_self th index t._tagIndex hindex huntagged
  refine ⟨hiff, ?_, ?_, ?_⟩
  · intro hfit
    rw [hiff, Nat.mod_eq_of_lt hfit]
  · intro hall
    have hno : ¬ ∃ a, (a ∈ (t._graph.GetStaticAnchors index).getD [] ∨
            a ∈ (t._graph.GetStackAnchors index).getD []) ∧
        AnchorQualifies sizeofOffset t._addressMap allocation.Address
          ((allocation.Address + allocation.Size) % 2 ^ (8 * sizeofOffset)) a := by
      rintro ⟨a, ha, hq⟩
      obtain ⟨h3, -, -, hcu, -⟩ := hq
      rcases hall a ha with h | h <;> omega
    rw [hholder.2 hno, huntagged]
  · intro registerAnchors
    unfold TagFromAllocation
    simp only [CheckVectorBodyAnchorIn_congr sizeofOffset t
      { t with _graph := { t._graph with GetRegisterAnchors := registerAnchors } } rfl rfl]

/-- C1, witness: in scenario S1 the weak phase tags the body through its stack anchor. -/
theorem TagFromAllocation_weak_tagged_iff_witness :
    (TagFromAllocation 8 s1Tagger s1Holder 0 .WEAK_CHECK s1Body).2.GetTagIndex 0
      = s1Tagger._tagIndex :=
  (TagFromAllocation_weak_tagged_iff 8 s1Tagger s1Holder 0 s1Body
    (by decide) (by decide) (by decide)).1.2 ⟨0x7ffd1000, Or.inr (by decide), by decide⟩

/-- C2. Embedded-vector soundness.  If `TagFromReferenced(WEAK_CHECK)` on an allocation with
`numOffsets` words changes the tag of allocation `bodyIndex`, then that allocation was
untagged before the call, carries the registered "vector body" tag after it, and there is a
word offset `k` with `k + 2 < numOffsets` whose outgoing slot is `bodyIndex`, not the
sentinel, and at which the words `k`, `k + 1`, `k + 2` form a vector triple for it: the five
conditions hold with the body limit the code computes, hence also
`capacityLimit ≤ address + size` for the exact sum. -/
theorem TagFromReferenced_weak_sound (sizeofOffset : Nat) (t : VectorAllocationsTagger)
    (th : TagHolder) (contiguousImage : ContiguousImage) (allocation : Allocation)
    (unresolvedOutgoing : Nat → Nat) (bodyIndex : Nat)
    (hchanged : (TagFromReferenced sizeofOffset t th contiguousImage .WEAK_CHECK allocation
      unresolvedOutgoing).2.GetTagIndex bodyIndex ≠ th.GetTagIndex bodyIndex) :
    th.GetTagIndex bodyIndex = 0 ∧
    (TagFromReferenced sizeofOffset t th contiguousImage .WEAK_CHECK allocation
      unresolvedOutgoing).2.GetTagIndex bodyIndex = t._tagIndex ∧
    ∃ k, k + 2 < contiguousImage.numOffsets ∧ unresolvedOutgoing k = bodyIndex ∧
      bodyIndex ≠ t._numAllocations ∧
      VectorTriple (t._finder.AllocationAt bodyIndex).Address
        (((t._finder.AllocationAt bodyIndex).Address +
          (t._finder.AllocationAt bodyIndex).Size) % 2 ^ (8 * sizeofOffset))
        (contiguousImage.offsetAt k) (contiguousImage.offsetAt (k + 1))
        (contiguousImage.offsetAt (k + 2)) ∧
      contiguousImage.offsetAt (k + 2) ≤
        (t._finder.AllocationAt bodyIndex).Address + (t._finder.AllocationAt bodyIndex).Size := by
  obtain ⟨h0, hT, k, hk, hout, hN, htriple⟩ :=
    TagFromReferenced_weak_changed sizeofOffset t th contiguousImage allocation
      unresolvedOutgoing bodyIndex hchanged
  exact ⟨h0, hT, k, hk, hout, hN, htriple, le_trans htriple.2.2.2.1 (Nat.mod_le _ _)⟩

/-- C2, witness: in the adjacent image the weak phase on the owner tags allocation 0, whose
vector header starts at word 0 of the owner. -/
theorem TagFromReferenced_weak_sound_witness :
    adjacentHolder.GetTagIndex 0 = 0 ∧
    (TagFromReferenced 8 adjacentTagger adjacentHolder adjacentOwnerImage .WEAK_CHECK
      adjacentOwner adjacentOwnerOutgoing).2.GetTagIndex 0 = adjacentTagger._tagIndex ∧
    ∃ k, k + 2 < adjacentOwnerImage.numOffsets ∧ adjacentOwnerOutgoing k = 0 ∧
      0 ≠ adjacentTagger._numAllocations ∧
      VectorTriple (adjacentTagger._finder.AllocationAt 0).Address
        (((adjacentTagger._finder.AllocationAt 0).Address +
          (adjacentTagger._finder.AllocationAt 0).Size) % 2 ^ (8 * 8))
        (adjacentOwnerImage.offsetAt k) (adjacentOwnerImage.offsetAt (k + 1))
        (adjacentOwnerImage.offsetAt (k + 2)) ∧
      adjacentOwnerImage.offsetAt (k + 2) ≤
        (adjacentTagger._finder.AllocationAt 0).Address +
          (adjacentTagger._finder.AllocationAt 0).Size :=
  TagFromReferenced_weak_sound 8 adjacentTagger adjacentHolder adjacentOwnerImage adjacentOwner
    adjacentOwnerOutgoing 0 (by decide)

/-- C3, as stated, fails.  In the adjacent image word 1 of the owner starts a triple that
satisfies every condition of the claim for the untagged allocation 1 (slot 1 is allocation 1,
not the sentinel; `1 + 2 < 4`; start, use limit and capacity limit fit the allocation), yet
after `TagFromReferenced(WEAK_CHECK)` allocation 1 is still untagged: the triple accepted at
word 0 makes the scan skip words 1 and 2. -/
theorem TagFromReferenced_weak_complete_counterexample :
    1 + 2 < adjacentOwnerImage.numOffsets ∧
    adjacentOwnerOutgoing 1 = 1 ∧
    adjacentOwnerOutgoing 1 ≠ adjacentTagger._numAllocations ∧
    adjacentHolder.GetTagIndex 1 = 0 ∧
    VectorTriple (adjacentTagger._finder.AllocationAt 1).Address
      ((adjacentTagger._finder.AllocationAt 1).Address +
        (adjacentTagger._finder.AllocationAt 1).Size)
      (adjacentOwnerImage.offsetAt 1) (adjacentOwnerImage.offsetAt 2)
      (adjacentOwnerImage.offsetAt 3) ∧
    (TagFromReferenced 8 adjacentTagger adjacentHolder adjacentOwnerImage .WEAK_CHECK
      adjacentOwner adjacentOwnerOutgoing).2.GetTagIndex 1 = 0 ∧
    adjacentTagger._tagIndex = 1 := by
  decide

/-- C3, amended.  Embedded-vector completeness at the words the scan does not skip: if
`k + 2 < numOffsets`, outgoing slot `k` is a non-sentinel index of the tag holder that is
untagged before the call, the words `k`, `k + 1`, `k + 2` form a vector triple for that
allocation (body limit as the code computes it), and `k` is neither of the two words that
follow a word at which this call accepts a triple, then after
`TagFromReferenced(WEAK_CHECK)` the allocation carries the "vector body" tag. -/
theorem TagFromReferenced_weak_complete (sizeofOffset : Nat) (t : VectorAllocationsTagger)
    (th : TagHolder) (contiguousImage : ContiguousImage) (allocation : Allocation)
    (unresolvedOutgoing : Nat → Nat) (k : Nat)
    (hk : k + 2 < contiguousImage.numOffsets)
    (hN : unresolvedOutgoing k ≠ t._numAllocations)
    (hindex : unresolvedOutgoing k < th.tags.length)
    (huntagged : th.GetTagIndex (unresolvedOutgoing k) = 0)
    (htriple : VectorTriple (t._finder.AllocationAt (unresolvedOutgoing k)).Address
        (((t._finder.AllocationAt (unresolvedOutgoing k)).Address +
          (t._finder.AllocationAt (unresolvedOutgoing k)).Size) % 2 ^ (8 * sizeofOffset))
        (contiguousImage.offsetAt k) (contiguousImage.offsetAt (k + 1))
        (contiguousImage.offsetAt (k + 2)))
    (hskip : ∀ j ∈ CheckEmbeddedVectors.accepted sizeofOffset t th contiguousImage
        unresolvedOutgoing, k ≠ j + 1 ∧ k ≠ j + 2) :
    (TagFromReferenced sizeofOffset t th contiguousImage .WEAK_CHECK allocation
      unresolvedOutgoing).2.GetTagIndex (unresolvedOutgoing k) = t._tagIndex := by
  apply CheckEmbeddedVectors.loop_complete sizeofOffset t contiguousImage unresolvedOutgoing
    _ _ _ _ k
  · simp only [ContiguousImage.OffsetLimit, ContiguousImage.FirstOffset]
    simp
  · simp [ContiguousImage.FirstOffset]
  · simp only [ContiguousImage.OffsetLimit]; omega
  · exact hN
  · exact hindex
  · exact Or.inl huntagged
  · exact htriple
  · intro p hp hacc
    apply hskip
    simp only [CheckEmbeddedVectors.accepted, List.mem_map, List.mem_filter,
      decide_eq_true_eq]
    exact ⟨p, ⟨hp, (CheckEmbeddedVectors.body_holder_ne_iff _ _ _ _ _ _).2 hacc⟩, rfl⟩

/-- C3 amended, witness: in the shifted owner image the header at word 1 is not skipped and
its body, allocation 0, is tagged. -/
theorem TagFromReferenced_weak_complete_witness :
    (TagFromReferenced 8 adjacentTagger adjacentHolder shiftedOwnerImage .WEAK_CHECK
      adjacentOwner shiftedOwnerOutgoing).2.GetTagIndex (shiftedOwnerOutgoing 1)
      = adjacentTagger._tagIndex :=
  TagFromReferenced_weak_complete 8 adjacentTagger adjacentHolder shiftedOwnerImage
    adjacentOwner shiftedOwnerOutgoing 1 (by decide) (by decide) (by decide) (by decide)
    (by decide) (by decide)

/-- C4, as stated, fails.  In the small image `TagFromAllocation(0, WEAK_CHECK, smallBody)`
sets the tag of allocation 0 although its size, 8 bytes, is less than `2 * sizeof(Offset)`
(16 bytes): the weak phase does not look at the size. -/
theorem TagFromAllocation_size_floor_counterexample :
    smallHolder.GetTagIndex 0 = 0 ∧
    (TagFromAllocation 8 smallTagger smallHolder 0 .WEAK_CHECK smallBody).2.GetTagIndex 0 = 1 ∧
    smallTagger._tagIndex = 1 ∧
    smallBody.Size < 2 * 8 := by
  decide

/-- C4, amended.  Size floor, anchor path: if a call
`TagFromAllocation(index, phase, allocation)` sets the tag of `index`, then the phase is
`WEAK_CHECK` and the allocation is not empty (`Size() ≥ 1`); and `Size() ≥ 2 * sizeof(Offset)`
holds whenever the `QUICK_INITIAL_CHECK` call for the same allocation returned `false`, the
only place where the tagger compares the size with `2 * sizeof(Offset)`. -/
theorem TagFromAllocation_size_floor (sizeofOffset : Nat) (t : VectorAllocationsTagger)
    (th : TagHolder) (index : Nat) (phase : Phase) (allocation : Allocation)
    (hset : (TagFromAllocation sizeofOffset t th index phase allocation).2.GetTagIndex index ≠
      th.GetTagIndex index) :
    phase = .WEAK_CHECK ∧ 1 ≤ allocation.Size ∧
    ((TagFromAllocation sizeofOffset t th index .QUICK_INITIAL_CHECK allocation).1 = false →
      2 * sizeofOffset ≤ allocation.Size) := by
  have huntagged : th.GetTagIndex index = 0 := by
    by_contra hne
    apply hset
    unfold TagFromAllocation
    rw [if_pos hne]
  have hphase : phase = .WEAK_CHECK := by
    by_contra hne
    apply hset
    unfold TagFromAllocation
    cases phase <;> simp_all
  subst hphase
  refine ⟨rfl, ?_, ?_⟩
  · have hholder := TagFromAllocation_weak_holder sizeofOffset t th index allocation huntagged
    by_cases hex : ∃ a, (a ∈ (t._graph.GetStaticAnchors index).getD [] ∨
        a ∈ (t._graph.GetStackAnchors index).getD []) ∧
        AnchorQualifies sizeofOffset t._addressMap allocation.Address
          ((allocation.Address + allocation.Size) % 2 ^ (8 * sizeofOffset)) a
    · obtain ⟨a, -, -, -, h1, h2, h3, h4⟩ := hex
      by_contra hsize
      have := Nat.mod_le (allocation.Address + allocation.Size) (2 ^ (8 * sizeofOffset))
      omega
    · rw [hholder.2 hex] at hset
      exact absurd rfl hset
  · intro hquick
    unfold TagFromAllocation at hquick
    simp only [huntagged, ne_eq, not_true_eq_false, ↓reduceIte, decide_eq_false_iff_not,
      not_lt] at hquick
    exact hquick

/-- C4 amended, witness: scenario S1, where the weak phase sets the tag of a body of 32
bytes. -/
theorem TagFromAllocation_size_floor_witness :
    Phase.WEAK_CHECK = .WEAK_CHECK ∧ 1 ≤ s1Body.Size ∧
    ((TagFromAllocation 8 s1Tagger s1Holder 0 .QUICK_INITIAL_CHECK s1Body).1 = false →
      2 * 8 ≤ s1Body.Size) :=
  TagFromAllocation_size_floor 8 s1Tagger s1Holder 0 .WEAK_CHECK s1Body (by decide)

/-- C5, as stated, fails.  In the small image `TagFromReferenced(WEAK_CHECK)` on the
three-word owner sets the tag of allocation 0 although its size, 8 bytes, is less than
`3 * sizeof(Offset)` (24 bytes): the size the quick phase compares with `3 * sizeof(Offset)`
is that of the owner, and `CheckEmbeddedVectors` never compares the size of the body. -/
theorem TagFromReferenced_size_floor_counterexample :
    smallHolder.GetTagIndex 0 = 0 ∧
    (TagFromReferenced 8 smallTagger smallHolder smallOwnerImage .WEAK_CHECK smallOwner
      smallOwnerOutgoing).2.GetTagIndex 0 = 1 ∧
    smallTagger._tagIndex = 1 ∧
    (smallTagger._finder.AllocationAt 0).Size < 3 * 8 ∧
    (TagFromReferenced 8 smallTagger smallHolder smallOwnerImage .QUICK_INITIAL_CHECK smallOwner
      smallOwnerOutgoing).1 = false := by
  decide

/-- C5, amended.  Size floor, embedded path: every allocation whose tag is set by
`TagFromReferenced` / `CheckEmbeddedVectors` is not empty (`size ≥ 1`), and the containing
image has at least three words; the call that sets the tag is a `WEAK_CHECK` call. -/
theorem TagFromReferenced_size_floor (sizeofOffset : Nat) (t : VectorAllocationsTagger)
    (th : TagHolder) (contiguousImage : ContiguousImage) (phase : Phase)
    (allocation : Allocation) (unresolvedOutgoing : Nat → Nat) (bodyIndex : Nat)
    (hset : (TagFromReferenced sizeofOffset t th contiguousImage phase allocation
      unresolvedOutgoing).2.GetTagIndex bodyIndex ≠ th.GetTagIndex bodyIndex) :
    phase = .WEAK_CHECK ∧ 1 ≤ (t._finder.AllocationAt bodyIndex).Size ∧
      3 ≤ contiguousImage.numOffsets := by
  have hphase : phase = .WEAK_CHECK := by
    by_contra hne
    apply hset
    unfold TagFromReferenced
    cases phase <;> simp_all
  subst hphase
  obtain ⟨-, -, k, hk, -, -, ⟨-, h1, h2, h3, h4⟩⟩ :=
    TagFromReferenced_weak_changed sizeofOffset t th contiguousImage allocation
      unresolvedOutgoing bodyIndex hset
  refine ⟨rfl, ?_, by omega⟩
  by_contra hsize
  have := Nat.mod_le ((t._finder.AllocationAt bodyIndex).Address +
    (t._finder.AllocationAt bodyIndex).Size) (2 ^ (8 * sizeofOffset))
  omega

/-- C5 amended, witness: the small image, where the body tagged through the owner has 8
bytes and the owner three words. -/
theorem TagFromReferenced_size_floor_witness :
    Phase.WEAK_CHECK = .WEAK_CHECK ∧ 1 ≤ (smallTagger._finder.AllocationAt 0).Size ∧
      3 ≤ smallOwnerImage.numOffsets :=
  TagFromReferenced_size_floor 8 smallTagger smallHolder smallOwnerImage .WEAK_CHECK smallOwner
    smallOwnerOutgoing 0 (by decide)

/-- C6. Tag-once.  For every tag-holder state and every call of `TagFromAllocation` or
`TagFromReferenced` in any phase: every allocation whose tag was non-zero before the call
has the same tag after it; and every `TagAllocation` call the tagger makes during the call
is made for an allocation whose current tag is `0`, with the "vector body" tag. -/
theorem VectorAllocationsTagger_tag_once (sizeofOffset : Nat) (t : VectorAllocationsTagger)
    (th : TagHolder) (index : Nat) (phase : Phase) (allocation : Allocation)
    (contiguousImage : ContiguousImage) (unresolvedOutgoing : Nat → Nat) :
    (∀ j, th.GetTagIndex j ≠ 0 →
      (TagFromAllocation sizeofOffset t th index phase allocation).2.GetTagIndex j =
          th.GetTagIndex j ∧
      (TagFromReferenced sizeofOffset t th contiguousImage phase allocation
        unresolvedOutgoing).2.GetTagIndex j = th.GetTagIndex j) ∧
    (∃ calls : List TagRequest,
      (TagFromAllocation sizeofOffset t th index phase allocation).2.requests =
          th.requests ++ calls ∧
      ∀ r ∈ calls, r.current = 0 ∧ r.tagIndex = t._tagIndex) ∧
    (∃ calls : List TagRequest,
      (TagFromReferenced sizeofOffset t th contiguousImage phase allocation
        unresolvedOutgoing).2.requests = th.requests ++ calls ∧
      ∀ r ∈ calls, r.current = 0 ∧ r.tagIndex = t._tagIndex) := by
  have hfrom : (TagFromAllocation sizeofOffset t th index phase allocation).2 = th ∨
      (th.GetTagIndex index = 0 ∧
        (TagFromAllocation sizeofOffset t th index phase allocation).2 =
          th.TagAllocation index t._tagIndex) := by
    by_cases huntagged : th.GetTagIndex index = 0
    · cases phase with
      | QUICK_INITIAL_CHECK => left; simp [TagFromAllocation, huntagged]
      | MEDIUM_CHECK => left; simp [TagFromAllocation, huntagged]
      | SLOW_CHECK => left; simp [TagFromAllocation, huntagged]
      | WEAK_CHECK =>
        have hholder :=
          TagFromAllocation_weak_holder sizeofOffset t th index allocation huntagged
        by_cases hex : ∃ a, (a ∈ (t._graph.GetStaticAnchors index).getD [] ∨
            a ∈ (t._graph.GetStackAnchors index).getD []) ∧
            AnchorQualifies sizeofOffset t._addressMap allocation.Address
              ((allocation.Address + allocation.Size) % 2 ^ (8 * sizeofOffset)) a
        · exact Or.inr ⟨huntagged, hholder.1 hex⟩
        · exact Or.inl (hholder.2 hex)
    · left
      unfold TagFromAllocation
      rw [if_pos huntagged]
  refine ⟨?_, ?_, ?_⟩
  · intro j hj
    constructor
    · rcases hfrom with h | ⟨-, h⟩
      · rw [h]
      · rw [h]
        exact TagHolder.GetTagIndex_TagAllocation_of_tagged th index t._tagIndex j hj
    · cases phase with
      | QUICK_INITIAL_CHECK => rfl
      | MEDIUM_CHECK => rfl
      | SLOW_CHECK => rfl
      | WEAK_CHECK =>
        by_contra hchanged
        exact hj (TagFromReferenced_weak_changed sizeofOffset t th contiguousImage allocation
          unresolvedOutgoing j hchanged).1
  · rcases hfrom with h | ⟨h0, h⟩
    · exact ⟨[], by rw [h]; simp, by simp⟩
    · refine ⟨[⟨index, t._tagIndex, th.GetTagIndex index⟩], by rw [h]; rfl, ?_⟩
      intro r hr
      rw [List.mem_singleton] at hr
      subst hr
      exact ⟨h0, rfl⟩
  · cases phase with
    | QUICK_INITIAL_CHECK => exact ⟨[], by simp [TagFromReferenced], by simp⟩
    | MEDIUM_CHECK => exact ⟨[], by simp [TagFromReferenced], by simp⟩
    | SLOW_CHECK => exact ⟨[], by simp [TagFromReferenced], by simp⟩
    | WEAK_CHECK => exact CheckEmbeddedVectors.loop_requests ..

/-- C7. Weak-only recognition: a call of `TagFromAllocation` or `TagFromReferenced` with
phase `QUICK_INITIAL_CHECK`, `MEDIUM_CHECK` or `SLOW_CHECK` leaves the tag holder unchanged
(no tag written and no `TagAllocation` call made). -/
theorem VectorAllocationsTagger_weak_only (sizeofOffset : Nat) (t : VectorAllocationsTagger)
    (th : TagHolder) (index : Nat) (phase : Phase) (allocation : Allocation)
    (contiguousImage : ContiguousImage) (unresolvedOutgoing : Nat → Nat)
    (hphase : phase ≠ .WEAK_CHECK) :
    (TagFromAllocation sizeofOffset t th index phase allocation).2 = th ∧
    (TagFromReferenced sizeofOffset t th contiguousImage phase allocation
      unresolvedOutgoing).2 = th := by
  cases phase with
  | QUICK_INITIAL_CHECK =>
    refine ⟨?_, rfl⟩
    unfold TagFromAllocation
    split <;> rfl
  | MEDIUM_CHECK =>
    refine ⟨?_, rfl⟩
    unfold TagFromAllocation
    split <;> rfl
  | SLOW_CHECK =>
    refine ⟨?_, rfl⟩
    unfold TagFromAllocation
    split <;> rfl
  | WEAK_CHECK => exact absurd rfl hphase

/-- C7, witness: the slow phase on the adjacent image, from whose owner the weak phase
tags. -/
theorem VectorAllocationsTagger_weak_only_witness :
    (TagFromAllocation 8 adjacentTagger adjacentHolder 2 .SLOW_CHECK adjacentOwner).2
      = adjacentHolder ∧
    (TagFromReferenced 8 adjacentTagger adjacentHolder adjacentOwnerImage .SLOW_CHECK
      adjacentOwner adjacentOwnerOutgoing).2 = adjacentHolder :=
  VectorAllocationsTagger_weak_only 8 adjacentTagger adjacentHolder 2 .SLOW_CHECK adjacentOwner
    adjacentOwnerImage adjacentOwnerOutgoing (by decide)

/-- C8. Return value of `TagFromAllocation`: it returns `true` exactly when the allocation at
`index` already has a non-zero tag, or the phase is `QUICK_INITIAL_CHECK` and
`allocation.Size() < 2 * sizeof(Offset)`, or the phase is `WEAK_CHECK`; in every other case
it returns `false`. -/
theorem TagFromAllocation_returns (sizeofOffset : Nat) (t : VectorAllocationsTagger)
    (th : TagHolder) (index : Nat) (phase : Phase) (allocation : Allocation) :
    ((TagFromAllocation sizeofOffset t th index phase allocation).1 = true ↔
      (th.GetTagIndex index ≠ 0 ∨
        (phase = .QUICK_INITIAL_CHECK ∧ allocation.Size < 2 * sizeofOffset) ∨
        phase = .WEAK_CHECK)) ∧
    ((TagFromAllocation sizeofOffset t th index phase allocation).1 = false ↔
      (th.GetTagIndex index = 0 ∧
        (phase = .MEDIUM_CHECK ∨ phase = .SLOW_CHECK ∨
          (phase = .QUICK_INITIAL_CHECK ∧ 2 * sizeofOffset ≤ allocation.Size)))) := by
  unfold TagFromAllocation
  by_cases htagged : th.GetTagIndex index ≠ 0
  · rw [if_pos htagged]
    simp [htagged]
  · rw [if_neg htagged]
    simp only [ne_eq, not_not] at htagged
    cases phase with
    | QUICK_INITIAL_CHECK => simp [htagged]
    | MEDIUM_CHECK => simp [htagged]
    | SLOW_CHECK => simp [htagged]
    | WEAK_CHECK =>
      simp only [htagged]
      split <;> simp

/-- C9. Return value of `TagFromReferenced`: it returns `true` if and only if the phase is
`QUICK_INITIAL_CHECK` and `allocation.Size() < 3 * sizeof(Offset)`; in `MEDIUM_CHECK`,
`SLOW_CHECK` and `WEAK_CHECK` it returns `false`, whether or not a body was tagged. -/
theorem TagFromReferenced_returns (sizeofOffset : Nat) (t : VectorAllocationsTagger)
    (th : TagHolder) (contiguousImage : ContiguousImage) (phase : Phase)
    (allocation : Allocation) (unresolvedOutgoing : Nat → Nat) :
    ((TagFromReferenced sizeofOffset t th contiguousImage phase allocation
        unresolvedOutgoing).1 = true ↔
      (phase = .QUICK_INITIAL_CHECK ∧ allocation.Size < 3 * sizeofOffset)) ∧
    (TagFromReferenced sizeofOffset t th contiguousImage .MEDIUM_CHECK allocation
        unresolvedOutgoing).1 = false ∧
    (TagFromReferenced sizeofOffset t th contiguousImage .SLOW_CHECK allocation
        unresolvedOutgoing).1 = false ∧
    (TagFromReferenced sizeofOffset t th contiguousImage .WEAK_CHECK allocation
        unresolvedOutgoing).1 = false := by
  refine ⟨?_, rfl, rfl, rfl⟩
  cases phase <;> simp [TagFromReferenced]

/-- C10. No overlapping embedded matches, for one call of `CheckEmbeddedVectors` (whose
result is what the last iteration of its trace hands back): whenever the iteration at word
offset `k` accepts its triple and calls `TagAllocation`, the loop pointer after the iteration
is `k + 3`; the word offsets `k + 1` and `k + 2` are not examined in that call; and any two
offsets at which the call accepts a triple are at least three words apart. -/
theorem CheckEmbeddedVectors_no_overlapping_matches (sizeofOffset : Nat)
    (t : VectorAllocationsTagger) (th : TagHolder) (contiguousImage : ContiguousImage)
    (unresolvedOutgoing : Nat → Nat) :
    CheckEmbeddedVectors sizeofOffset t th contiguousImage unresolvedOutgoing =
      (((CheckEmbeddedVectors.trace sizeofOffset t th contiguousImage
          unresolvedOutgoing).getLast?).map
        (fun p => (CheckEmbeddedVectors.body sizeofOffset t contiguousImage unresolvedOutgoing
          p.1 p.2).2)).getD th ∧
    (∀ p ∈ CheckEmbeddedVectors.trace sizeofOffset t th contiguousImage unresolvedOutgoing,
      (CheckEmbeddedVectors.body sizeofOffset t contiguousImage unresolvedOutgoing
          p.1 p.2).2 ≠ p.2 →
        (CheckEmbeddedVectors.body sizeofOffset t contiguousImage unresolvedOutgoing
          p.1 p.2).1 + 1 = p.1 + 3) ∧
    (∀ k ∈ CheckEmbeddedVectors.accepted sizeofOffset t th contiguousImage unresolvedOutgoing,
      k + 1 ∉ CheckEmbeddedVectors.examined sizeofOffset t th contiguousImage
          unresolvedOutgoing ∧
      k + 2 ∉ CheckEmbeddedVectors.examined sizeofOffset t th contiguousImage
          unresolvedOutgoing) ∧
    (∀ j ∈ CheckEmbeddedVectors.accepted sizeofOffset t th contiguousImage unresolvedOutgoing,
      ∀ k ∈ CheckEmbeddedVectors.accepted sizeofOffset t th contiguousImage
          unresolvedOutgoing,
        j < k → j + 3 ≤ k) := by
  have hacc : ∀ k ∈ CheckEmbeddedVectors.accepted sizeofOffset t th contiguousImage
      unresolvedOutgoing,
      ∃ p ∈ CheckEmbeddedVectors.trace sizeofOffset t th contiguousImage unresolvedOutgoing,
        p.1 = k ∧ CheckEmbeddedVectors.Accepts sizeofOffset t contiguousImage
          unresolvedOutgoing p.1 p.2 := by
    intro k hk
    simp only [CheckEmbeddedVectors.accepted, List.mem_map, List.mem_filter,
      decide_eq_true_eq] at hk
    obtain ⟨p, ⟨hp, hne⟩, hpk⟩ := hk
    exact ⟨p, hp, hpk, (CheckEmbeddedVectors.body_holder_ne_iff _ _ _ _ _ _).1 hne⟩
  have hgap : ∀ k ∈ CheckEmbeddedVectors.accepted sizeofOffset t th contiguousImage
      unresolvedOutgoing,
      ∀ q ∈ CheckEmbeddedVectors.trace sizeofOffset t th contiguousImage unresolvedOutgoing,
        k < q.1 → k + 3 ≤ q.1 := by
    intro k hk q hq hlt
    obtain ⟨p, hp, hpk, ha⟩ := hacc k hk
    have := CheckEmbeddedVectors.iterations_mem_rel sizeofOffset t contiguousImage
      unresolvedOutgoing _ _ _ _ p q hp hq (by omega) ha
    omega
  refine ⟨?_, ?_, ?_, ?_⟩
  · exact CheckEmbeddedVectors.loop_eq_last ..
  · intro p _ hne
    rw [CheckEmbeddedVectors.body_of_accepts _ _ _ _ _ _
      ((CheckEmbeddedVectors.body_holder_ne_iff _ _ _ _ _ _).1 hne)]
  · intro k hk
    constructor
    · intro hmem
      simp only [CheckEmbeddedVectors.examined, List.mem_map] at hmem
      obtain ⟨q, hq, hqk⟩ := hmem
      have := hgap k hk q hq (by omega)
      omega
    · intro hmem
      simp only [CheckEmbeddedVectors.examined, List.mem_map] at hmem
      obtain ⟨q, hq, hqk⟩ := hmem
      have := hgap k hk q hq (by omega)
      omega
  · intro j hj k hk hjk
    obtain ⟨q, hq, hqk, -⟩ := hacc k hk
    have := hgap j hj q hq (by omega)
    omega

/-! ## Idempotence, frame and bounds of the tagger -/

theorem TagHolder.TagAllocation_tagNames (th : TagHolder) (index tagIndex : Nat) :
    (th.TagAllocation index tagIndex).tagNames = th.tagNames := rfl

theorem CheckEmbeddedVectors.loop_tagNames (sizeofOffset : Nat) (t : VectorAllocationsTagger)
    (contiguousImage : ContiguousImage) (unresolvedOutgoing : Nat → Nat) (offsetLimit : Int)
    (fuel check : Nat) (th : TagHolder) :
    (CheckEmbeddedVectors.loop sizeofOffset t contiguousImage unresolvedOutgoing
      offsetLimit fuel check th).tagNames = th.tagNames := by
  induction fuel generalizing check th with
  | zero => rfl
  | succ n ih =>
    simp only [CheckEmbeddedVectors.loop]
    split_ifs with hlt
    · by_cases ha : CheckEmbeddedVectors.Accepts sizeofOffset t contiguousImage
          unresolvedOutgoing check th
      · rw [CheckEmbeddedVectors.body_of_accepts _ _ _ _ _ _ ha, ih,
          TagHolder.TagAllocation_tagNames]
      · rw [CheckEmbeddedVectors.body_of_not_accepts _ _ _ _ _ _ ha, ih]
    · rfl

/-- Allocations that are separated (no allocation starts within the closed range
`[address, address + size]` of another one, as when the allocator keeps a size/status word
between allocations) satisfy the hypothesis of `CheckEmbeddedVectors_second_pass`. -/
theorem CheckEmbeddedVectors.overlap_of_separated (sizeofOffset : Nat)
    (t : VectorAllocationsTagger) (contiguousImage : ContiguousImage)
    (unresolvedOutgoing : Nat → Nat)
    (hseparated : ∀ i i', i ≠ i' →
      ¬ ((t._finder.AllocationAt i).Address ≤ (t._finder.AllocationAt i').Address ∧
        (t._finder.AllocationAt i').Address ≤
          (t._finder.AllocationAt i).Address + (t._finder.AllocationAt i).Size))
    (j k : Nat) (hjk : k = j + 1 ∨ k = j + 2)
    (hj : VectorTriple (t._finder.AllocationAt (unresolvedOutgoing j)).Address
        (((t._finder.AllocationAt (unresolvedOutgoing j)).Address +
          (t._finder.AllocationAt (unresolvedOutgoing j)).Size) % 2 ^ (8 * sizeofOffset))
        (contiguousImage.offsetAt j) (contiguousImage.offsetAt (j + 1))
        (contiguousImage.offsetAt (j + 2)))
    (hk : VectorTriple (t._finder.AllocationAt (unresolvedOutgoing k)).Address
        (((t._finder.AllocationAt (unresolvedOutgoing k)).Address +
          (t._finder.AllocationAt (unresolvedOutgoing k)).Size) % 2 ^ (8 * sizeofOffset))
        (contiguousImage.offsetAt k) (contiguousImage.offsetAt (k + 1))
        (contiguousImage.offsetAt (k + 2))) :
    unresolvedOutgoing k = unresolvedOutgoing j := by
  by_contra hne
  apply hseparated (unresolvedOutgoing j) (unresolvedOutgoing k) (Ne.symm hne)
  obtain ⟨h1, h2, h3, h4, -⟩ := hj
  obtain ⟨h5, -⟩ := hk
  have hmod := Nat.mod_le ((t._finder.AllocationAt (unresolvedOutgoing j)).Address +
    (t._finder.AllocationAt (unresolvedOutgoing j)).Size) (2 ^ (8 * sizeofOffset))
  rcases hjk with rfl | rfl
  · constructor <;> omega
  · constructor <;> omega

/-- The loop body reads the image and the outgoing slots only at `check`, `check + 1` and
`check + 2`. -/
theorem CheckEmbeddedVectors.body_congr (sizeofOffset : Nat) (t : VectorAllocationsTagger)
    (contiguousImage otherImage : ContiguousImage) (unresolvedOutgoing otherOutgoing : Nat → Nat)
    (check : Nat) (th : TagHolder)
    (hout : otherOutgoing check = unresolvedOutgoing check)
    (h0 : otherImage.offsetAt check = contiguousImage.offsetAt check)
    (h1 : otherImage.offsetAt (check + 1) = contiguousImage.offsetAt (check + 1))
    (h2 : otherImage.offsetAt (check + 2) = contiguousImage.offsetAt (check + 2)) :
    CheckEmbeddedVectors.body sizeofOffset t otherImage otherOutgoing check th =
      CheckEmbeddedVectors.body sizeofOffset t contiguousImage unresolvedOutgoing check th := by
  unfold CheckEmbeddedVectors.body
  rw [hout, h0, h1, h2]

/-- The loop reads the image and the outgoing slots only below `offsetLimit + 2`. -/
theorem CheckEmbeddedVectors.loop_reads_below (sizeofOffset : Nat) (t : VectorAllocationsTagger)
    (contiguousImage otherImage : ContiguousImage) (unresolvedOutgoing otherOutgoing : Nat → Nat)
    (offsetLimit : Int)
    (hout : ∀ k : Nat, (k : Int) < offsetLimit + 2 → otherOutgoing k = unresolvedOutgoing k)
    (himage : ∀ k : Nat, (k : Int) < offsetLimit + 2 →
      otherImage.offsetAt k = contiguousImage.offsetAt k)
    (fuel check : Nat) (th : TagHolder) :
    CheckEmbeddedVectors.loop sizeofOffset t otherImage otherOutgoing offsetLimit fuel check th =
      CheckEmbeddedVectors.loop sizeofOffset t contiguousImage unresolvedOutgoing offsetLimit
        fuel check th := by
  induction fuel generalizing check th with
  | zero => rfl
  | succ n ih =>
    simp only [CheckEmbeddedVectors.loop]
    split_ifs with hlt
    · rw [CheckEmbeddedVectors.body_congr sizeofOffset t contiguousImage otherImage
        unresolvedOutgoing otherOutgoing check th (hout check (by omega))
        (himage check (by omega)) (himage (check + 1) (by push_cast; omega))
        (himage (check + 2) (by push_cast; omega)), ih]
    · rfl

/-- With the loop pointer at or past `offsetLimit` the loop executes no iteration. -/
theorem CheckEmbeddedVectors.loop_of_not_lt (sizeofOffset : Nat) (t : VectorAllocationsTagger)
    (contiguousImage : ContiguousImage) (unresolvedOutgoing : Nat → Nat) (offsetLimit : Int)
    (fuel check : Nat) (th : TagHolder) (h : ¬ (check : Int) < offsetLimit) :
    CheckEmbeddedVectors.loop sizeofOffset t contiguousImage unresolvedOutgoing offsetLimit
        fuel check th = th ∧
    CheckEmbeddedVectors.iterations sizeofOffset t contiguousImage unresolvedOutgoing
        offsetLimit fuel check th = [] := by
  cases fuel with
  | zero => exact ⟨rfl, rfl⟩
  | succ n =>
    constructor
    · simp only [CheckEmbeddedVectors.loop]
      rw [if_neg h]
    · simp only [CheckEmbeddedVectors.iterations]
      rw [if_neg h]

/-- The tag holder after `TagFromAllocation`, in any phase: the one received, or the one
received with one `TagAllocation(index, _tagIndex)` call made while `index` was untagged. -/
theorem TagFromAllocation_holder_cases (sizeofOffset : Nat) (t : VectorAllocationsTagger)
    (th : TagHolder) (index : Nat) (phase : Phase) (allocation : Allocation) :
    (TagFromAllocation sizeofOffset t th index phase allocation).2 = th ∨
      (th.GetTagIndex index = 0 ∧
        (TagFromAllocation sizeofOffset t th index phase allocation).2 =
          th.TagAllocation index t._tagIndex) := by
  by_cases huntagged : th.GetTagIndex index = 0
  · cases phase with
    | QUICK_INITIAL_CHECK => left; simp [TagFromAllocation, huntagged]
    | MEDIUM_CHECK => left; simp [TagFromAllocation, huntagged]
    | SLOW_CHECK => left; simp [TagFromAllocation, huntagged]
    | WEAK_CHECK =>
      have hholder :=
        TagFromAllocation_weak_holder sizeofOffset t th index allocation huntagged
      by_cases hex : ∃ a, (a ∈ (t._graph.GetStaticAnchors index).getD [] ∨
          a ∈ (t._graph.GetStackAnchors index).getD []) ∧
          AnchorQualifies sizeofOffset t._addressMap allocation.Address
            ((allocation.Address + allocation.Size) % 2 ^ (8 * sizeofOffset)) a
      · exact Or.inr ⟨huntagged, hholder.1 hex⟩
      · exact Or.inl (hholder.2 hex)
  · left
    unfold TagFromAllocation
    rw [if_pos huntagged]

/-- What a change of tag by `TagFromReferenced` in any phase implies. -/
theorem TagFromReferenced_changed (sizeofOffset : Nat) (t : VectorAllocationsTagger)
    (th : TagHolder) (contiguousImage : ContiguousImage) (phase : Phase)
    (allocation : Allocation) (unresolvedOutgoing : Nat → Nat) (bodyIndex : Nat)
    (hchanged : (TagFromReferenced sizeofOffset t th contiguousImage phase allocation
      unresolvedOutgoing).2.GetTagIndex bodyIndex ≠ th.GetTagIndex bodyIndex) :
    phase = .WEAK_CHECK ∧ th.GetTagIndex bodyIndex = 0 ∧
    (TagFromReferenced sizeofOffset t th contiguousImage phase allocation
      unresolvedOutgoing).2.GetTagIndex bodyIndex = t._tagIndex ∧
    ∃ k, k + 2 < contiguousImage.numOffsets ∧ unresolvedOutgoing k = bodyIndex ∧
      bodyIndex ≠ t._numAllocations ∧
      VectorTriple (t._finder.AllocationAt bodyIndex).Address
        (((t._finder.AllocationAt bodyIndex).Address +
          (t._finder.AllocationAt bodyIndex).Size) % 2 ^ (8 * sizeofOffset))
        (contiguousImage.offsetAt k) (contiguousImage.offsetAt (k + 1))
        (contiguousImage.offsetAt (k + 2)) := by
  cases phase with
  | QUICK_INITIAL_CHECK => exact absurd rfl hchanged
  | MEDIUM_CHECK => exact absurd rfl hchanged
  | SLOW_CHECK => exact absurd rfl hchanged
  | WEAK_CHECK =>
    exact ⟨rfl, TagFromReferenced_weak_changed sizeofOffset t th contiguousImage allocation
      unresolvedOutgoing bodyIndex hchanged⟩

/-- The `TagAllocation` calls of `TagFromReferenced`, in any phase, carry the tagger's
tag, and the call registers no tag name. -/
theorem TagFromReferenced_requests (sizeofOffset : Nat) (t : VectorAllocationsTagger)
    (th : TagHolder) (contiguousImage : ContiguousImage) (phase : Phase)
    (allocation : Allocation) (unresolvedOutgoing : Nat → Nat) :
    (∃ calls : List TagRequest,
      (TagFromReferenced sizeofOffset t th contiguousImage phase allocation
        unresolvedOutgoing).2.requests = th.requests ++ calls ∧
      ∀ r ∈ calls, r.current = 0 ∧ r.tagIndex = t._tagIndex) ∧
    (TagFromReferenced sizeofOffset t th contiguousImage phase allocation
      unresolvedOutgoing).2.tagNames = th.tagNames := by
  cases phase with
  | QUICK_INITIAL_CHECK => exact ⟨⟨[], by simp [TagFromReferenced], by simp⟩, rfl⟩
  | MEDIUM_CHECK => exact ⟨⟨[], by simp [TagFromReferenced], by simp⟩, rfl⟩
  | SLOW_CHECK => exact ⟨⟨[], by simp [TagFromReferenced], by simp⟩, rfl⟩
  | WEAK_CHECK =>
    exact ⟨CheckEmbeddedVectors.loop_requests .., CheckEmbeddedVectors.loop_tagNames ..⟩

/-- A vector triple cannot fit a body whose computed limit does not exceed its address. -/
theorem VectorTriple.limit_gt (address limit start useLimit capacityLimit : Nat)
    (h : VectorTriple address limit start useLimit capacityLimit) :
    address ≤ useLimit ∧ useLimit ≤ capacityLimit ∧ address < capacityLimit ∧
      capacityLimit ≤ limit ∧ address < limit := by
  obtain ⟨-, h1, h2, h3, h4⟩ := h
  omega

/-- For a size that is an `Offset` value, a computed body limit above the address means that
`address + size` did not overflow. -/
theorem bodyLimit_no_overflow (sizeofOffset address size : Nat)
    (hsize : size < 2 ^ (8 * sizeofOffset))
    (hlimit : address < (address + size) % 2 ^ (8 * sizeofOffset)) :
    address + size < 2 ^ (8 * sizeofOffset) := by
  by_contra hover
  have hge : 2 ^ (8 * sizeofOffset) ≤ address + size := by omega
  rw [Nat.mod_eq_sub_mod hge, Nat.mod_eq_of_lt (by omega)] at hlimit
  omega

/-! ## Describers -/

theorem strlen.scan_eq (image : Nat → Char) (numBytes j length : Nat)
    (hj : j ≤ length) (hin : length < j + numBytes)
    (hnonzero : ∀ i, j ≤ i → i < length → image i ≠ Char.ofNat 0)
    (hnul : image length = Char.ofNat 0) :
    strlen.scan image numBytes j = some length := by
  induction numBytes generalizing j with
  | zero => omega
  | succ n ih =>
    simp only [strlen.scan]
    by_cases hjl : j = length
    · subst hjl
      rw [if_pos hnul]
    · rw [if_neg (hnonzero j (le_refl _) (by omega))]
      exact ih (j + 1) (by omega) (by omega) (fun i hi hil => hnonzero i (by omega) hil)

/-- On an image whose first NUL byte is at offset `length`, within the mapped bytes, `strlen`
returns `length`. -/
theorem strlen_eq (image : Nat → Char) (numBytes length : Nat)
    (hin : length < numBytes)
    (hnonzero : ∀ i, i < length → image i ≠ Char.ofNat 0)
    (hnul : image length = Char.ofNat 0) :
    strlen image numBytes = some length :=
  strlen.scan_eq image numBytes 0 length (Nat.zero_le _) (by omega)
    (fun i _ hi => hnonzero i hi) hnul

theorem stringOf_length (image : Nat → Char) (count : Nat) :
    (stringOf image count).length = count := by
  simp [stringOf, String.length]

/-- The output of `LongStringDescriber::Describe` for an allocation that is mapped in full
and holds a NUL-terminated string of `length` bytes, `length` being an `Offset` value. -/
theorem LongStringDescriber.Describe_of_string (sizeofOffset : Nat)
    (addressMap : VirtualAddressMapBytes) (context : Context) (allocation : Allocation)
    (explain : Bool) (length : Nat)
    (hmapped : allocation.Size ≤ (addressMap.FindMappedMemoryImage allocation.Address).1)
    (hin : length < (addressMap.FindMappedMemoryImage allocation.Address).1)
    (hnonzero : ∀ i, i < length →
      (addressMap.FindMappedMemoryImage allocation.Address).2 i ≠ Char.ofNat 0)
    (hnul : (addressMap.FindMappedMemoryImage allocation.Address).2 length = Char.ofNat 0)
    (hfit : length < 2 ^ (8 * sizeofOffset)) :
    LongStringDescriber.Describe sizeofOffset addressMap context allocation explain =
      some
        { text := context.GetOutput.text ++ "This allocation matches pattern LongString.\n" ++
            "The string has 0x" ++ context.GetOutput.render true length ++ " bytes, " ++
            (if explain = true ∨ length < 77 then "containing\n\"" else "starting with\n\"") ++
            (if explain = true ∨ length < 77 then
              stringOf (addressMap.FindMappedMemoryImage allocation.Address).2 length
             else stringOf (addressMap.FindMappedMemoryImage allocation.Address).2 77) ++
            "\".\n"
          hexMode := true
          render := context.GetOutput.render } := by
  unfold LongStringDescriber.Describe
  simp only [ge_iff_le, hmapped, ↓reduceIte, strlen_eq _ _ _ hin hnonzero hnul,
    Nat.mod_eq_of_lt hfit]
  split_ifs <;> rfl

/-! ## ProcessImage -/

/-- For every partition, the constructor loop applies `ClaimRange` once per thread, in the
order of the thread map, to `(stackBase, stackLimit - stackBase, "stack", false)`. -/
theorem ProcessImage.claimStacks_partition {Partition : Type} (sizeofOffset : Nat)
    (ClaimRange : Partition → Nat → Nat → String → Bool → Bool × Partition)
    (threadMap : List ThreadInfo) (partition : Partition) (cerr : String) :
    (ProcessImage.claimStacks sizeofOffset ClaimRange threadMap partition cerr).1 =
      threadMap.foldl (fun p it => (ClaimRange p it._stackBase
        (Offset.sub sizeofOffset it._stackLimit it._stackBase) "stack" false).2) partition := by
  induction threadMap generalizing partition cerr with
  | nil => rfl
  | cons it rest ih =>
    simp only [ProcessImage.claimStacks, List.foldl_cons]
    split_ifs <;> exact ih _ _

/-- The calls a recording partition receives from the constructor loop. -/
theorem ProcessImage.claimStacks_recorded (sizeofOffset : Nat) (answer : RangeClaim → Bool)
    (threadMap : List ThreadInfo) (calls : List RangeClaim) (cerr : String) :
    (ProcessImage.claimStacks sizeofOffset (recordingClaimRange answer) threadMap calls cerr).1 =
      calls ++ threadMap.map (fun it =>
        ⟨it._stackBase, Offset.sub sizeofOffset it._stackLimit it._stackBase, "stack", false⟩) := by
  induction threadMap generalizing calls cerr with
  | nil => simp [ProcessImage.claimStacks]
  | cons it rest ih =>
    simp only [ProcessImage.claimStacks, List.map_cons]
    split_ifs <;> rw [ih] <;> simp [recordingClaimRange]

theorem Offset.sub_of_le (sizeofOffset a b : Nat) (hba : b ≤ a)
    (ha : a < 2 ^ (8 * sizeofOffset)) : Offset.sub sizeofOffset a b = a - b := by
  unfold Offset.sub
  have h : a + 2 ^ (8 * sizeofOffset) - b = (a - b) + 2 ^ (8 * sizeofOffset) := by omega
  rw [h, Nat.add_mod_right, Nat.mod_eq_of_lt (by omega)]

theorem Offset.sub_of_lt (sizeofOffset a b : Nat) (hab : a < b)
    (hb : b < 2 ^ (8 * sizeofOffset)) :
    Offset.sub sizeofOffset a b = 2 ^ (8 * sizeofOffset) - (b - a) := by
  unfold Offset.sub
  rw [Nat.mod_eq_of_lt (by omega)]
  omega

/-! ## Registration of the tag -/

/-- Along a history the registered names only grow, at the end of the list. -/
theorem TagHolder.Reaches.tagNames_append (th later : TagHolder)
    (h : TagHolder.Reaches th later) :
    ∃ added : List String, later.tagNames = th.tagNames ++ added := by
  induction h with
  | refl => exact ⟨[], by simp⟩
  | register later name _ ih =>
    obtain ⟨added, hadded⟩ := ih
    exact ⟨added ++ [name], by simp [TagHolder.RegisterTag, hadded]⟩
  | tag later index tagIndex _ ih =>
    obtain ⟨added, hadded⟩ := ih
    exact ⟨added, by rw [TagHolder.TagAllocation_tagNames, hadded]⟩

theorem TagHolder.Reaches.trans (th middle later : TagHolder)
    (h1 : TagHolder.Reaches th middle) (h2 : TagHolder.Reaches middle later) :
    TagHolder.Reaches th later := by
  induction h2 with
  | refl => exact h1
  | register later name _ ih => exact TagHolder.Reaches.register th later name ih
  | tag later index tagIndex _ ih => exact TagHolder.Reaches.tag th later index tagIndex ih

/-- The constructor hands back the tag holder with "vector body" registered, and keeps the
index that registration returned. -/
theorem VectorAllocationsTagger.new_registers (graph : Graph) (tagHolder : TagHolder) :
    (VectorAllocationsTagger.new graph tagHolder).2 =
      (tagHolder.RegisterTag "vector body").2 ∧
    (VectorAllocationsTagger.new graph tagHolder).1._tagIndex =
      (tagHolder.RegisterTag "vector body").1 ∧
    (VectorAllocationsTagger.new graph tagHolder).2.tagNames =
      tagHolder.tagNames ++ ["vector body"] ∧
    (VectorAllocationsTagger.new graph tagHolder).1._tagIndex =
      tagHolder.tagNames.length + 1 :=
  ⟨rfl, rfl, rfl, rfl⟩

/-- The tag holder after the loop of `CheckEmbeddedVectors` is a history of the one before. -/
theorem CheckEmbeddedVectors.loop_reaches (sizeofOffset : Nat) (t : VectorAllocationsTagger)
    (contiguousImage : ContiguousImage) (unresolvedOutgoing : Nat → Nat) (offsetLimit : Int)
    (fuel check : Nat) (th : TagHolder) :
    TagHolder.Reaches th (CheckEmbeddedVectors.loop sizeofOffset t contiguousImage
      unresolvedOutgoing offsetLimit fuel check th) := by
  induction fuel generalizing check th with
  | zero => exact TagHolder.Reaches.refl th
  | succ n ih =>
    simp only [CheckEmbeddedVectors.loop]
    split_ifs with hlt
    · by_cases ha : CheckEmbeddedVectors.Accepts sizeofOffset t contiguousImage
          unresolvedOutgoing check th
      · rw [CheckEmbeddedVectors.body_of_accepts _ _ _ _ _ _ ha]
        exact TagHolder.Reaches.trans _ _ _
          (TagHolder.Reaches.tag th th _ _ (TagHolder.Reaches.refl th)) (ih _ _)
      · rw [CheckEmbeddedVectors.body_of_not_accepts _ _ _ _ _ _ ha]
        exact ih _ _
    · exact TagHolder.Reaches.refl th

/-- The tag holder after either callback is a history of the one before. -/
theorem VectorAllocationsTagger.callbacks_reach (sizeofOffset : Nat)
    (t : VectorAllocationsTagger) (th : TagHolder) (index : Nat) (phase : Phase)
    (allocation : Allocation) (contiguousImage : ContiguousImage) (owner : Allocation)
    (unresolvedOutgoing : Nat → Nat) :
    TagHolder.Reaches th (TagFromAllocation sizeofOffset t th index phase allocation).2 ∧
    TagHolder.Reaches th (TagFromReferenced sizeofOffset t th contiguousImage phase owner
      unresolvedOutgoing).2 := by
  constructor
  · rcases TagFromAllocation_holder_cases sizeofOffset t th index phase allocation with
      h | ⟨-, h⟩
    · rw [h]; exact TagHolder.Reaches.refl th
    · rw [h]; exact TagHolder.Reaches.tag th th _ _ (TagHolder.Reaches.refl th)
  · cases phase with
    | QUICK_INITIAL_CHECK => exact TagHolder.Reaches.refl th
    | MEDIUM_CHECK => exact TagHolder.Reaches.refl th
    | SLOW_CHECK => exact TagHolder.Reaches.refl th
    | WEAK_CHECK => exact CheckEmbeddedVectors.loop_reaches ..

/-! ## Claims, continued -/

/-- C12. LongStringDescriber truncation rule.  For an allocation whose mapped image covers
the whole allocation and holds a NUL-terminated string of `length` bytes (an `Offset`
value), `Describe` writes the pattern line, then the length rendered in hexadecimal mode
after `0x`, and then the full `length`-byte payload when `explain` is true or
`length < 77`, and otherwise exactly the first 77 bytes of the payload; a string of exactly
77 bytes with `explain = false` goes through the truncating branch. -/
theorem LongStringDescriber_truncation (sizeofOffset : Nat)
    (addressMap : VirtualAddressMapBytes) (context : Context) (allocation : Allocation)
    (explain : Bool) (length : Nat)
    (hmapped : allocation.Size ≤ (addressMap.FindMappedMemoryImage allocation.Address).1)
    (hin : length < (addressMap.FindMappedMemoryImage allocation.Address).1)
    (hnonzero : ∀ i, i < length →
      (addressMap.FindMappedMemoryImage allocation.Address).2 i ≠ Char.ofNat 0)
    (hnul : (addressMap.FindMappedMemoryImage allocation.Address).2 length = Char.ofNat 0)
    (hfit : length < 2 ^ (8 * sizeofOffset)) :
    (∃ output, LongStringDescriber.Describe sizeofOffset addressMap context allocation explain
        = some output ∧
      output.text =
        context.GetOutput.text ++ "This allocation matches pattern LongString.\n" ++
          "The string has 0x" ++ context.GetOutput.render true length ++ " bytes, " ++
          (if explain = true ∨ length < 77 then "containing\n\"" else "starting with\n\"") ++
          (if explain = true ∨ length < 77 then
            stringOf (addressMap.FindMappedMemoryImage allocation.Address).2 length
           else stringOf (addressMap.FindMappedMemoryImage allocation.Address).2 77) ++
          "\".\n") ∧
    (stringOf (addressMap.FindMappedMemoryImage allocation.Address).2 length).length = length ∧
    (stringOf (addressMap.FindMappedMemoryImage allocation.Address).2 77).length = 77 ∧
    (∀ count i, i < count →
      (stringOf (addressMap.FindMappedMemoryImage allocation.Address).2 count).data.get? i =
        some ((addressMap.FindMappedMemoryImage allocation.Address).2 i)) ∧
    (length = 77 → explain = false →
      ∃ output, LongStringDescriber.Describe sizeofOffset addressMap context allocation explain
          = some output ∧
        output.text =
          context.GetOutput.text ++ "This allocation matches pattern LongString.\n" ++
            "The string has 0x" ++ context.GetOutput.render true 77 ++ " bytes, " ++
            "starting with\n\"" ++
            stringOf (addressMap.FindMappedMemoryImage allocation.Address).2 77 ++
            "\".\n") := by
  have hdescribe := LongStringDescriber.Describe_of_string sizeofOffset addressMap context
    allocation explain length hmapped hin hnonzero hnul hfit
  refine ⟨⟨_, hdescribe, rfl⟩, stringOf_length _ _, stringOf_length _ _, ?_, ?_⟩
  · intro count i hi
    simp [stringOf, List.get?_eq_getElem?, hi]
  · intro h77 hexplain
    subst h77
    subst hexplain
    exact ⟨_, hdescribe, by simp⟩

/-- C12, witness: scenario S3, a 200-byte string described with `explain = false`; the
length is written as `c8` after `0x` and 77 bytes are shown. -/
theorem LongStringDescriber_truncation_witness :
    ∃ output, LongStringDescriber.Describe 8 s3AddressMap emptyContext s3Allocation false
        = some output ∧
      output.text =
        "" ++ "This allocation matches pattern LongString.\n" ++
          "The string has 0x" ++ "c8" ++ " bytes, " ++ "starting with\n\"" ++
          stringOf (fun _ => 'h') 77 ++ "\".\n" := by
  obtain ⟨output, hsome, htext⟩ := (LongStringDescriber_truncation 8 s3AddressMap emptyContext
    s3Allocation false 200 (by decide) (by decide)
    (by
      intro i hi
      show (if i < 200 then 'h' else Char.ofNat 0) ≠ Char.ofNat 0
      rw [if_pos hi]
      decide) (by decide) (by decide)).1
  refine ⟨output, hsome, ?_⟩
  rw [htext]
  have hrender : emptyContext.GetOutput.render true 200 = "c8" := by decide
  have hpayload : stringOf (s3AddressMap.FindMappedMemoryImage s3Allocation.Address).2 77 =
      stringOf (fun _ => 'h') 77 := by
    rfl
  rw [hrender, hpayload]
  rfl

set_option maxRecDepth 100000 in
/-- C13, as stated, fails.  In scenario S3 (a 200-byte string, `explain = false`) the output
is the two header phrases, the first 77 bytes of the payload between double quotes, a full
stop and a newline: no ellipsis marker follows the 77 bytes. -/
theorem LongStringDescriber_ellipsis_counterexample :
    ∃ output, LongStringDescriber.Describe 8 s3AddressMap emptyContext s3Allocation false
        = some output ∧
      strlen (s3AddressMap.FindMappedMemoryImage s3Allocation.Address).2
        (s3AddressMap.FindMappedMemoryImage s3Allocation.Address).1 = some 200 ∧
      output.text = "This allocation matches pattern LongString.\n" ++
        "The string has 0xc8 bytes, starting with\n\"" ++ stringOf (fun _ => 'h') 77 ++
        "\".\n" ∧
      ¬ EllipsisFollows output.text
        (stringOf (s3AddressMap.FindMappedMemoryImage s3Allocation.Address).2 77) :=
  ⟨_, rfl, by decide, by decide, by decide⟩

/-- C13, amended.  For a NUL-terminated string of at least 77 bytes (mapped in full, its
length an `Offset` value) described with `explain = false`, the output is the header, the
words `starting with`, and on a new line the first 77 bytes of the payload between double
quotes, followed by a full stop and a newline and nothing else; described with
`explain = true`, the same header is followed by `containing` and the whole payload.  The
words `starting with` in place of `containing`, not an ellipsis marker, tell truncated
output from a complete string. -/
theorem LongStringDescriber_truncated_output (sizeofOffset : Nat)
    (addressMap : VirtualAddressMapBytes) (context : Context) (allocation : Allocation)
    (length : Nat)
    (hmapped : allocation.Size ≤ (addressMap.FindMappedMemoryImage allocation.Address).1)
    (hin : length < (addressMap.FindMappedMemoryImage allocation.Address).1)
    (hnonzero : ∀ i, i < length →
      (addressMap.FindMappedMemoryImage allocation.Address).2 i ≠ Char.ofNat 0)
    (hnul : (addressMap.FindMappedMemoryImage allocation.Address).2 length = Char.ofNat 0)
    (hfit : length < 2 ^ (8 * sizeofOffset))
    (hlong : 77 ≤ length) :
    (∃ output, LongStringDescriber.Describe sizeofOffset addressMap context allocation false
        = some output ∧
      output.text =
        context.GetOutput.text ++ "This allocation matches pattern LongString.\n" ++
          "The string has 0x" ++ context.GetOutput.render true length ++ " bytes, " ++
          "starting with\n\"" ++
          stringOf (addressMap.FindMappedMemoryImage allocation.Address).2 77 ++ "\".\n") ∧
    (∃ output, LongStringDescriber.Describe sizeofOffset addressMap context allocation true
        = some output ∧
      output.text =
        context.GetOutput.text ++ "This allocation matches pattern LongString.\n" ++
          "The string has 0x" ++ context.GetOutput.render true length ++ " bytes, " ++
          "containing\n\"" ++
          stringOf (addressMap.FindMappedMemoryImage allocation.Address).2 length ++
          "\".\n") := by
  constructor
  · refine ⟨_, LongStringDescriber.Describe_of_string sizeofOffset addressMap context
      allocation false length hmapped hin hnonzero hnul hfit, ?_⟩
    have hnot : ¬ (false = true ∨ length < 77) := by
      rintro (h | h)
      · exact absurd h (by decide)
      · omega
    simp only [if_neg hnot]
  · refine ⟨_, LongStringDescriber.Describe_of_string sizeofOffset addressMap context
      allocation true length hmapped hin hnonzero hnul hfit, ?_⟩
    simp only [true_or, if_true]

/-- C13 amended, witness: a string of exactly 77 bytes. -/
theorem LongStringDescriber_truncated_output_witness :
    ∃ output, LongStringDescriber.Describe 8 exact77AddressMap emptyContext s3Allocation false
        = some output ∧
      output.text =
        emptyContext.GetOutput.text ++ "This allocation matches pattern LongString.\n" ++
          "The string has 0x" ++ emptyContext.GetOutput.render true 77 ++ " bytes, " ++
          "starting with\n\"" ++
          stringOf (exact77AddressMap.FindMappedMemoryImage s3Allocation.Address).2 77 ++
          "\".\n" :=
  (LongStringDescriber_truncated_output 8 exact77AddressMap emptyContext s3Allocation 77
    (by decide) (by decide)
    (by
      intro i hi
      show (if i < 77 then 'h' else Char.ofNat 0) ≠ Char.ofNat 0
      rw [if_pos hi]
      decide) (by decide) (by decide) (by decide)).1

/-- C14, as stated, fails.  For a thread with `stackBase = 0x7ffd2000` above
`stackLimit = 0x7ffd0000` the constructor passes `stackBase`, the larger value, as start and
the wrapped difference `2^64 - 0x2000` as size, not `min = 0x7ffd0000` and
`max - min = 0x2000`. -/
theorem ProcessImage_stack_claim_counterexample :
    (ProcessImage.claimStacks 8 (recordingClaimRange (fun _ => true)) [downwardThread]
      [] "").1 = [⟨0x7ffd2000, 0xffffffffffffe000, "stack", false⟩] ∧
    min downwardThread._stackBase downwardThread._stackLimit = 0x7ffd0000 ∧
    max downwardThread._stackBase downwardThread._stackLimit -
      min downwardThread._stackBase downwardThread._stackLimit = 0x2000 := by
  decide

/-- C14, amended.  For every thread in the thread map, in order, the constructor calls
`ClaimRange(stackBase, stackLimit - stackBase, "stack", false)`, the difference being the
`Offset` subtraction, whatever the partition answers.  For a thread with
`stackBase ≤ stackLimit` the start is the smaller of the two values and the size is
their non-negative difference, so the range is `[min, max)`; the constructor does not
normalise a thread with `stackBase > stackLimit`. -/
theorem ProcessImage_stack_claim (sizeofOffset : Nat) (answer : RangeClaim → Bool)
    (threadMap : List ThreadInfo) (calls : List RangeClaim) (cerr : String)
    (hoffsets : ∀ it ∈ threadMap, it._stackBase < 2 ^ (8 * sizeofOffset) ∧
      it._stackLimit < 2 ^ (8 * sizeofOffset)) :
    (ProcessImage.claimStacks sizeofOffset (recordingClaimRange answer) threadMap calls cerr).1 =
      calls ++ threadMap.map (fun it =>
        ⟨it._stackBase, Offset.sub sizeofOffset it._stackLimit it._stackBase, "stack", false⟩) ∧
    (∀ it ∈ threadMap, it._stackBase ≤ it._stackLimit →
      it._stackBase = min it._stackBase it._stackLimit ∧
      Offset.sub sizeofOffset it._stackLimit it._stackBase =
        max it._stackBase it._stackLimit - min it._stackBase it._stackLimit) ∧
    (∀ it ∈ threadMap, it._stackLimit < it._stackBase →
      it._stackBase = max it._stackBase it._stackLimit ∧
      Offset.sub sizeofOffset it._stackLimit it._stackBase =
        2 ^ (8 * sizeofOffset) - (it._stackBase - it._stackLimit)) := by
  refine ⟨ProcessImage.claimStacks_recorded sizeofOffset answer threadMap calls cerr, ?_, ?_⟩
  · intro it hit hle
    rw [Offset.sub_of_le sizeofOffset _ _ hle (hoffsets it hit).2]
    omega
  · intro it hit hlt
    rw [Offset.sub_of_lt sizeofOffset _ _ hlt (hoffsets it hit).1]
    omega

/-- C14 amended, witness: a thread map with one thread of either kind. -/
theorem ProcessImage_stack_claim_witness :
    (ProcessImage.claimStacks 8 (recordingClaimRange (fun _ => true))
      [downwardThread, upwardThread] [] "").1 =
      [] ++ [downwardThread, upwardThread].map (fun it =>
        ⟨it._stackBase, Offset.sub 8 it._stackLimit it._stackBase, "stack", false⟩) :=
  (ProcessImage_stack_claim 8 (fun _ => true) [downwardThread, upwardThread] [] ""
    (by decide)).1

/-- C15. SSL_CTXDescriber output.  With `explain = false` the call appends exactly the line
stating that the allocation matches pattern SSL_CTX; with `explain = true` it appends that
line followed by the statement that the first pointer points to what appears to be an
SSL_METHOD structure; so what is written with `explain = false` is a strict prefix of what
is written with `explain = true`; and the output does not depend on the index or on the
allocation. -/
theorem SSL_CTXDescriber_output (context : Context) (index : Nat) (allocation : Allocation) :
    (SSL_CTXDescriber.Describe context index allocation false).text =
      context.GetOutput.text ++ "This allocation matches pattern SSL_CTX.\n" ∧
    (SSL_CTXDescriber.Describe context index allocation true).text =
      context.GetOutput.text ++ "This allocation matches pattern SSL_CTX.\n" ++
        "The first pointer points to what appears to be an  SSL_METHOD structure.\n" ∧
    (∃ justification : String, justification ≠ "" ∧
      (SSL_CTXDescriber.Describe context index allocation true).text =
        (SSL_CTXDescriber.Describe context index allocation false).text ++ justification) ∧
    (∀ (otherIndex : Nat) (otherAllocation : Allocation) (explain : Bool),
      SSL_CTXDescriber.Describe context otherIndex otherAllocation explain =
        SSL_CTXDescriber.Describe context index allocation explain) := by
  exact ⟨rfl, rfl,
    ⟨"The first pointer points to what appears to be an  SSL_METHOD structure.\n", by decide,
      rfl⟩,
    fun _ _ _ => rfl⟩

/-- C16. Recognizer ordering.  `ProcessImage::TagAllocations` registers, in this order, the
taggers UnorderedMapOrSet, MapOrSet, Deque, List, LongString, Vector, COWString, OpenSSL,
Python.  Whatever taggers are still active, the runner invokes the Deque tagger before the
Vector tagger when both are active, and never the Vector tagger before the Deque tagger. -/
theorem ProcessImage_TagAllocations_order :
    ProcessImage.TagAllocations.taggers =
      [.UnorderedMapOrSetAllocationsTagger, .MapOrSetAllocationsTagger,
        .DequeAllocationsTagger, .ListAllocationsTagger, .LongStringAllocationsTagger,
        .VectorAllocationsTagger, .COWStringAllocationsTagger, .OpenSSLAllocationsTagger,
        .PythonAllocationsTagger] ∧
    (∀ active : TaggerKind → Bool,
      active .DequeAllocationsTagger = true → active .VectorAllocationsTagger = true →
      List.Sublist [TaggerKind.DequeAllocationsTagger, TaggerKind.VectorAllocationsTagger]
        (ProcessImage.TagAllocations.invoked active)) ∧
    (∀ active : TaggerKind → Bool,
      ¬ List.Sublist [TaggerKind.VectorAllocationsTagger, TaggerKind.DequeAllocationsTagger]
        (ProcessImage.TagAllocations.invoked active)) := by
  refine ⟨rfl, ?_, ?_⟩
  · intro active hdeque hvector
    have hsub : List.Sublist
        [TaggerKind.DequeAllocationsTagger, TaggerKind.VectorAllocationsTagger]
        ProcessImage.TagAllocations.taggers := by decide
    have := hsub.filter active
    simpa [hdeque, hvector, TaggerRunner.invoked] using this
  · intro active hsub
    have hall : List.Sublist (ProcessImage.TagAllocations.invoked active)
        ProcessImage.TagAllocations.taggers := List.filter_sublist _
    exact absurd (hsub.trans hall) (by decide)

/-- C17. Bounds safety of the embedded scan, for an image of `numOffsets` words.  Every word
offset `k` the scan examines, reading `unresolvedOutgoing[k]` and the words `k`, `k + 1`,
`k + 2`, satisfies `k + 2 < numOffsets`; the call gives the same result for any other image
and slot array that agree with the given ones at the indices below `numOffsets`, so nothing
outside them is read; and when `numOffsets < 3` no iteration is executed and
`TagFromReferenced(WEAK_CHECK)` hands back the tag holder it received. -/
theorem CheckEmbeddedVectors_bounds (sizeofOffset : Nat) (t : VectorAllocationsTagger)
    (th : TagHolder) (contiguousImage : ContiguousImage) (allocation : Allocation)
    (unresolvedOutgoing : Nat → Nat) :
    (∀ k ∈ CheckEmbeddedVectors.examined sizeofOffset t th contiguousImage unresolvedOutgoing,
      k + 2 < contiguousImage.numOffsets) ∧
    (∀ (otherImage : ContiguousImage) (otherOutgoing : Nat → Nat),
      otherImage.numOffsets = contiguousImage.numOffsets →
      (∀ k, k < contiguousImage.numOffsets →
        otherImage.offsetAt k = contiguousImage.offsetAt k) →
      (∀ k, k < contiguousImage.numOffsets → otherOutgoing k = unresolvedOutgoing k) →
      TagFromReferenced sizeofOffset t th otherImage .WEAK_CHECK allocation otherOutgoing =
        TagFromReferenced sizeofOffset t th contiguousImage .WEAK_CHECK allocation
          unresolvedOutgoing) ∧
    (contiguousImage.numOffsets < 3 →
      CheckEmbeddedVectors.examined sizeofOffset t th contiguousImage unresolvedOutgoing = [] ∧
      (TagFromReferenced sizeofOffset t th contiguousImage .WEAK_CHECK allocation
        unresolvedOutgoing).2 = th) := by
  refine ⟨?_, ?_, ?_⟩
  · intro k hk
    simp only [CheckEmbeddedVectors.examined, CheckEmbeddedVectors.trace, List.mem_map] at hk
    obtain ⟨p, hp, rfl⟩ := hk
    have := (CheckEmbeddedVectors.iterations_bounds _ _ _ _ _ _ _ _ p hp).2
    simp only [ContiguousImage.OffsetLimit] at this
    omega
  · intro otherImage otherOutgoing hn himage hout
    simp only [TagFromReferenced, CheckEmbeddedVectors, ContiguousImage.OffsetLimit,
      ContiguousImage.FirstOffset, hn]
    rw [CheckEmbeddedVectors.loop_reads_below sizeofOffset t contiguousImage otherImage
      unresolvedOutgoing otherOutgoing _ (fun k hk => hout k (by omega))
      (fun k hk => himage k (by omega))]
  · intro hn
    have hnone : ¬ (((contiguousImage.FirstOffset).toNat : Nat) : Int) <
        contiguousImage.OffsetLimit - 2 := by
      simp only [ContiguousImage.OffsetLimit, ContiguousImage.FirstOffset]
      simp only [Int.toNat_zero, Nat.cast_zero]
      omega
    have hboth := CheckEmbeddedVectors.loop_of_not_lt sizeofOffset t contiguousImage
      unresolvedOutgoing _ contiguousImage.numOffsets _ th hnone
    constructor
    · simp only [CheckEmbeddedVectors.examined, CheckEmbeddedVectors.trace]
      have h2 : CheckEmbeddedVectors.iterations sizeofOffset t contiguousImage
          unresolvedOutgoing (contiguousImage.OffsetLimit - 2) contiguousImage.numOffsets 0 th
          = [] := hboth.2
      rw [h2]
      rfl
    · exact hboth.1

/-- C18. LongStringDescriber on incompletely mapped allocations: when
`FindMappedMemoryImage(allocation.Address())` reports fewer contiguous mapped bytes than
`allocation.Size()`, `Describe` hands back the output object it received, with nothing
written, for both values of `explain`. -/
theorem LongStringDescriber_incompletely_mapped (sizeofOffset : Nat)
    (addressMap : VirtualAddressMapBytes) (context : Context) (allocation : Allocation)
    (explain : Bool)
    (hshort : (addressMap.FindMappedMemoryImage allocation.Address).1 < allocation.Size) :
    LongStringDescriber.Describe sizeofOffset addressMap context allocation explain =
      some context.GetOutput := by
  unfold LongStringDescriber.Describe
  simp only [ge_iff_le]
  rw [if_neg (by omega)]

/-- C18, witness: an allocation at an address that is not mapped. -/
theorem LongStringDescriber_incompletely_mapped_witness :
    LongStringDescriber.Describe 8 s3AddressMap emptyContext
      { Address := 0x50000000, Size := 0x20 } true = some emptyContext.GetOutput :=
  LongStringDescriber_incompletely_mapped 8 s3AddressMap emptyContext
    { Address := 0x50000000, Size := 0x20 } true (by decide)

/-- C19. Frame of the tagger's effects, for the tagger constructed on tag holder
`constructedOn`.  `TagFromAllocation(index, ...)` changes the tag of no allocation other than
`index`; `TagFromReferenced` on an image of `numOffsets` words changes the tag only of
allocations named by a non-sentinel outgoing slot `k` with `k + 3 ≤ numOffsets`; every tag
either callback assigns, and the tag of every `TagAllocation` call it makes, is `_tagIndex`.
The constructor hands back `constructedOn` with "vector body" registered, and `_tagIndex` is
the index that registration returned.  That index is not `0`; no registration made later, on
any tag holder that the constructor's one evolves into by registrations and tag
assignments, returns it; no registration made earlier, on a tag holder that evolved into
`constructedOn`, returned it; and in every later tag holder the name registered under it is
"vector body".  The callbacks themselves only make `TagAllocation` calls: they register no
name. -/
theorem VectorAllocationsTagger_frame (sizeofOffset : Nat) (graph : Graph)
    (constructedOn : TagHolder) (t : VectorAllocationsTagger)
    (ht : t = (VectorAllocationsTagger.new graph constructedOn).1)
    (th : TagHolder) (index : Nat) (phase : Phase) (allocation : Allocation)
    (contiguousImage : ContiguousImage) (owner : Allocation) (unresolvedOutgoing : Nat → Nat) :
    (∀ j, j ≠ index →
      (TagFromAllocation sizeofOffset t th index phase allocation).2.GetTagIndex j =
        th.GetTagIndex j) ∧
    (∀ j, (TagFromReferenced sizeofOffset t th contiguousImage phase owner
        unresolvedOutgoing).2.GetTagIndex j ≠ th.GetTagIndex j →
      ∃ k, k + 3 ≤ contiguousImage.numOffsets ∧ unresolvedOutgoing k = j ∧
        unresolvedOutgoing k ≠ t._numAllocations) ∧
    (∀ j, (TagFromAllocation sizeofOffset t th index phase allocation).2.GetTagIndex j ≠
        th.GetTagIndex j →
      (TagFromAllocation sizeofOffset t th index phase allocation).2.GetTagIndex j =
        t._tagIndex) ∧
    (∀ j, (TagFromReferenced sizeofOffset t th contiguousImage phase owner
        unresolvedOutgoing).2.GetTagIndex j ≠ th.GetTagIndex j →
      (TagFromReferenced sizeofOffset t th contiguousImage phase owner
        unresolvedOutgoing).2.GetTagIndex j = t._tagIndex) ∧
    (∃ calls : List TagRequest,
      (TagFromAllocation sizeofOffset t th index phase allocation).2.requests =
        th.requests ++ calls ∧
      ∀ r ∈ calls, r.index = index ∧ r.tagIndex = t._tagIndex) ∧
    (∃ calls : List TagRequest,
      (TagFromReferenced sizeofOffset t th contiguousImage phase owner
        unresolvedOutgoing).2.requests = th.requests ++ calls ∧
      ∀ r ∈ calls, r.tagIndex = t._tagIndex) ∧
    (VectorAllocationsTagger.new graph constructedOn).2 =
      (constructedOn.RegisterTag "vector body").2 ∧
    t._tagIndex = (constructedOn.RegisterTag "vector body").1 ∧
    t._tagIndex ≠ 0 ∧
    (∀ (later : TagHolder) (name : String),
      TagHolder.Reaches (VectorAllocationsTagger.new graph constructedOn).2 later →
        (later.RegisterTag name).1 ≠ t._tagIndex) ∧
    (∀ (earlier : TagHolder) (name : String),
      TagHolder.Reaches (earlier.RegisterTag name).2 constructedOn →
        (earlier.RegisterTag name).1 ≠ t._tagIndex) ∧
    (∀ later : TagHolder,
      TagHolder.Reaches (VectorAllocationsTagger.new graph constructedOn).2 later →
        later.tagNames[t._tagIndex - 1]? = some "vector body") ∧
    (TagHolder.Reaches th (TagFromAllocation sizeofOffset t th index phase allocation).2 ∧
      (TagFromAllocation sizeofOffset t th index phase allocation).2.tagNames = th.tagNames) ∧
    (TagHolder.Reaches th (TagFromReferenced sizeofOffset t th contiguousImage phase owner
        unresolvedOutgoing).2 ∧
      (TagFromReferenced sizeofOffset t th contiguousImage phase owner
        unresolvedOutgoing).2.tagNames = th.tagNames) := by
  have hfrom := TagFromAllocation_holder_cases sizeofOffset t th index phase allocation
  have hnew := VectorAllocationsTagger.new_registers graph constructedOn
  have hreach := VectorAllocationsTagger.callbacks_reach sizeofOffset t th index phase
    allocation contiguousImage owner unresolvedOutgoing
  have hindex : t._tagIndex = constructedOn.tagNames.length + 1 := by
    rw [ht]; exact hnew.2.2.2
  refine ⟨?_, ?_, ?_, ?_, ?_, ?_, hnew.1, ?_, ?_, ?_, ?_, ?_, ⟨hreach.1, ?_⟩, ⟨hreach.2, ?_⟩⟩
  · intro j hj
    rcases hfrom with h | ⟨-, h⟩
    · rw [h]
    · rw [h]
      exact TagHolder.GetTagIndex_TagAllocation_of_ne th index t._tagIndex j hj
  · intro j hj
    obtain ⟨-, -, -, k, hk, hout, hN, -⟩ := TagFromReferenced_changed sizeofOffset t th
      contiguousImage phase owner unresolvedOutgoing j hj
    exact ⟨k, by omega, hout, by rw [hout]; exact hN⟩
  · intro j hj
    rcases hfrom with h | ⟨-, h⟩
    · rw [h] at hj
      exact absurd rfl hj
    · rw [h] at hj ⊢
      rcases TagHolder.GetTagIndex_TagAllocation_cases th index t._tagIndex j with h' | ⟨-, -, h'⟩
      · exact absurd h' hj
      · exact h'
  · intro j hj
    exact (TagFromReferenced_changed sizeofOffset t th contiguousImage phase owner
      unresolvedOutgoing j hj).2.2.1
  · rcases hfrom with h | ⟨-, h⟩
    · exact ⟨[], by rw [h]; simp, by simp⟩
    · refine ⟨[⟨index, t._tagIndex, th.GetTagIndex index⟩], by rw [h]; rfl, ?_⟩
      intro r hr
      rw [List.mem_singleton] at hr
      subst hr
      exact ⟨rfl, rfl⟩
  · obtain ⟨⟨calls, hcalls, hall⟩, -⟩ := TagFromReferenced_requests sizeofOffset t th
      contiguousImage phase owner unresolvedOutgoing
    exact ⟨calls, hcalls, fun r hr => (hall r hr).2⟩
  · rw [ht]
    exact hnew.2.1
  · rw [hindex]
    omega
  · intro later name hlater
    obtain ⟨added, hadded⟩ := TagHolder.Reaches.tagNames_append _ _ hlater
    rw [hnew.2.2.1] at hadded
    have hlen : (later.RegisterTag name).1 = later.tagNames.length + 1 := rfl
    rw [hlen, hadded, hindex]
    simp only [List.length_append, List.length_singleton]
    omega
  · intro earlier name hearlier
    obtain ⟨added, hadded⟩ := TagHolder.Reaches.tagNames_append _ _ hearlier
    have hlen : (earlier.RegisterTag name).1 = earlier.tagNames.length + 1 := rfl
    have hnames : (earlier.RegisterTag name).2.tagNames = earlier.tagNames ++ [name] := rfl
    rw [hnames] at hadded
    rw [hlen, hindex, hadded]
    simp only [List.length_append, List.length_singleton]
    omega
  · intro later hlater
    obtain ⟨added, hadded⟩ := TagHolder.Reaches.tagNames_append _ _ hlater
    rw [hnew.2.2.1] at hadded
    rw [hadded, hindex, Nat.add_sub_cancel, List.append_assoc,
      List.getElem?_append_right (le_refl _)]
    simp
  · rcases hfrom with h | ⟨-, h⟩
    · rw [h]
    · rw [h]
      rfl
  · exact (TagFromReferenced_requests sizeofOffset t th contiguousImage phase owner
      unresolvedOutgoing).2

/-- C19, witness: the tagger of the adjacent image, constructed on a fresh tag holder for
three allocations.  Its tag holder carries the registration of "vector body" under index 1,
and the next registration on it returns another index. -/
theorem VectorAllocationsTagger_frame_witness :
    adjacentHolder = ((TagHolder.new 3).RegisterTag "vector body").2 ∧
    adjacentTagger._tagIndex = ((TagHolder.new 3).RegisterTag "vector body").1 ∧
    adjacentTagger._tagIndex ≠ 0 ∧
    (adjacentHolder.RegisterTag "deque block").1 ≠ adjacentTagger._tagIndex ∧
    adjacentHolder.tagNames[adjacentTagger._tagIndex - 1]? = some "vector body" :=
  ⟨(VectorAllocationsTagger_frame 8 adjacentGraph (TagHolder.new 3) adjacentTagger rfl
      adjacentHolder 0 .WEAK_CHECK adjacentOwner adjacentOwnerImage adjacentOwner
      adjacentOwnerOutgoing).2.2.2.2.2.2.1,
   (VectorAllocationsTagger_frame 8 adjacentGraph (TagHolder.new 3) adjacentTagger rfl
      adjacentHolder 0 .WEAK_CHECK adjacentOwner adjacentOwnerImage adjacentOwner
      adjacentOwnerOutgoing).2.2.2.2.2.2.2.1,
   (VectorAllocationsTagger_frame 8 adjacentGraph (TagHolder.new 3) adjacentTagger rfl
      adjacentHolder 0 .WEAK_CHECK adjacentOwner adjacentOwnerImage adjacentOwner
      adjacentOwnerOutgoing).2.2.2.2.2.2.2.2.1,
   (VectorAllocationsTagger_frame 8 adjacentGraph (TagHolder.new 3) adjacentTagger rfl
      adjacentHolder 0 .WEAK_CHECK adjacentOwner adjacentOwnerImage adjacentOwner
      adjacentOwnerOutgoing).2.2.2.2.2.2.2.2.2.1 adjacentHolder "deque block"
      (TagHolder.Reaches.refl _),
   (VectorAllocationsTagger_frame 8 adjacentGraph (TagHolder.new 3) adjacentTagger rfl
      adjacentHolder 0 .WEAK_CHECK adjacentOwner adjacentOwnerImage adjacentOwner
      adjacentOwnerOutgoing).2.2.2.2.2.2.2.2.2.2.2.1 adjacentHolder
      (TagHolder.Reaches.refl _)⟩

/-- C20. Wrap-around of the body limit.  `CheckVectorBodyAnchorIn` compares with the body
limit `(address + size) mod 2^w`.  For an allocation whose computed body limit does not
exceed its address (every allocation of size 0 is one), `CheckVectorBodyAnchorIn` returns
`false` with the tag holder unchanged and `CheckEmbeddedVectors` neither changes its tag nor
accepts a triple for it.  For an allocation that is tagged, by an anchor or by an embedded
triple, the accepted triple satisfies `address ≤ useLimit ≤ capacityLimit` and
`address < capacityLimit ≤ address + size`, and `address + size` does not overflow (the size
being an `Offset` value). -/
theorem VectorAllocationsTagger_wrap_around (sizeofOffset : Nat) (t : VectorAllocationsTagger)
    (th : TagHolder) (bodyIndex : Nat) (bodyAllocation : Allocation)
    (anchors : Option (List Nat)) (contiguousImage : ContiguousImage)
    (unresolvedOutgoing : Nat → Nat) :
    (∀ anchorList, CheckVectorBodyAnchorIn sizeofOffset t th bodyIndex bodyAllocation
        (some anchorList) =
      CheckVectorBodyAnchorIn.loop sizeofOffset t th bodyIndex bodyAllocation.Address
        ((bodyAllocation.Address + bodyAllocation.Size) % 2 ^ (8 * sizeofOffset)) anchorList) ∧
    (bodyAllocation.Size = 0 →
      (bodyAllocation.Address + bodyAllocation.Size) % 2 ^ (8 * sizeofOffset) ≤
        bodyAllocation.Address) ∧
    ((bodyAllocation.Address + bodyAllocation.Size) % 2 ^ (8 * sizeofOffset) ≤
        bodyAllocation.Address →
      CheckVectorBodyAnchorIn sizeofOffset t th bodyIndex bodyAllocation anchors =
        (false, th)) ∧
    (((t._finder.AllocationAt bodyIndex).Address + (t._finder.AllocationAt bodyIndex).Size) %
        2 ^ (8 * sizeofOffset) ≤ (t._finder.AllocationAt bodyIndex).Address →
      (CheckEmbeddedVectors sizeofOffset t th contiguousImage
          unresolvedOutgoing).GetTagIndex bodyIndex = th.GetTagIndex bodyIndex ∧
      ∀ p ∈ CheckEmbeddedVectors.trace sizeofOffset t th contiguousImage unresolvedOutgoing,
        CheckEmbeddedVectors.Accepts sizeofOffset t contiguousImage unresolvedOutgoing p.1 p.2 →
          unresolvedOutgoing p.1 ≠ bodyIndex) ∧
    ((CheckVectorBodyAnchorIn sizeofOffset t th bodyIndex bodyAllocation anchors).1 = true →
      (CheckVectorBodyAnchorIn sizeofOffset t th bodyIndex bodyAllocation anchors).2 =
        th.TagAllocation bodyIndex t._tagIndex ∧
      ∃ a ∈ anchors.getD [],
        (t._addressMap.FindMappedMemoryImage a).2 0 = bodyAllocation.Address ∧
        bodyAllocation.Address ≤ (t._addressMap.FindMappedMemoryImage a).2 1 ∧
        (t._addressMap.FindMappedMemoryImage a).2 1 ≤
          (t._addressMap.FindMappedMemoryImage a).2 2 ∧
        bodyAllocation.Address < (t._addressMap.FindMappedMemoryImage a).2 2 ∧
        (t._addressMap.FindMappedMemoryImage a).2 2 ≤
          bodyAllocation.Address + bodyAllocation.Size ∧
        (bodyAllocation.Size < 2 ^ (8 * sizeofOffset) →
          bodyAllocation.Address + bodyAllocation.Size < 2 ^ (8 * sizeofOffset))) ∧
    ((CheckEmbeddedVectors sizeofOffset t th contiguousImage
        unresolvedOutgoing).GetTagIndex bodyIndex ≠ th.GetTagIndex bodyIndex →
      ∃ k, k + 2 < contiguousImage.numOffsets ∧ unresolvedOutgoing k = bodyIndex ∧
        contiguousImage.offsetAt k = (t._finder.AllocationAt bodyIndex).Address ∧
        (t._finder.AllocationAt bodyIndex).Address ≤ contiguousImage.offsetAt (k + 1) ∧
        contiguousImage.offsetAt (k + 1) ≤ contiguousImage.offsetAt (k + 2) ∧
        (t._finder.AllocationAt bodyIndex).Address < contiguousImage.offsetAt (k + 2) ∧
        contiguousImage.offsetAt (k + 2) ≤
          (t._finder.AllocationAt bodyIndex).Address +
            (t._finder.AllocationAt bodyIndex).Size ∧
        ((t._finder.AllocationAt bodyIndex).Size < 2 ^ (8 * sizeofOffset) →
          (t._finder.AllocationAt bodyIndex).Address +
            (t._finder.AllocationAt bodyIndex).Size < 2 ^ (8 * sizeofOffset))) := by
  have hflag := CheckVectorBodyAnchorIn_flag sizeofOffset t th bodyIndex bodyAllocation anchors
  have hholder := CheckVectorBodyAnchorIn_holder sizeofOffset t th bodyIndex bodyAllocation
    anchors
  refine ⟨fun _ => rfl, ?_, ?_, ?_, ?_, ?_⟩
  · intro hsize
    rw [hsize, Nat.add_zero]
    exact Nat.mod_le _ _
  · intro hlimit
    have hfalse : (CheckVectorBodyAnchorIn sizeofOffset t th bodyIndex bodyAllocation
        anchors).1 = false := by
      by_contra hne
      simp only [Bool.not_eq_false] at hne
      obtain ⟨a, -, -, htriple⟩ := hflag.1 hne
      have := VectorTriple.limit_gt _ _ _ _ _ htriple
      omega
    rw [hfalse] at hholder
    simp only [Bool.false_eq_true, ↓reduceIte] at hholder
    exact Prod.ext hfalse hholder
  · intro hlimit
    constructor
    · by_contra hchanged
      obtain ⟨-, -, k, -, -, -, -, htriple⟩ :=
        CheckEmbeddedVectors.loop_sound sizeofOffset t contiguousImage unresolvedOutgoing
          _ _ _ _ _ hchanged
      have := VectorTriple.limit_gt _ _ _ _ _ htriple
      omega
    · intro p _ hacc hout
      have := VectorTriple.limit_gt _ _ _ _ _ hacc.2.2
      rw [hout] at this
      omega
  · intro htrue
    rw [if_pos htrue] at hholder
    refine ⟨hholder, ?_⟩
    obtain ⟨a, ha, -, htriple⟩ := hflag.1 htrue
    have hb := VectorTriple.limit_gt _ _ _ _ _ htriple
    have hmod := Nat.mod_le (bodyAllocation.Address + bodyAllocation.Size)
      (2 ^ (8 * sizeofOffset))
    refine ⟨a, ha, htriple.1, hb.1, hb.2.1, hb.2.2.1, by omega, ?_⟩
    intro hsize
    exact bodyLimit_no_overflow sizeofOffset _ _ hsize hb.2.2.2.2
  · intro hchanged
    obtain ⟨-, -, k, -, hk, hout, -, htriple⟩ :=
      CheckEmbeddedVectors.loop_sound sizeofOffset t contiguousImage unresolvedOutgoing
        _ _ _ _ _ hchanged
    have hb := VectorTriple.limit_gt _ _ _ _ _ htriple
    have hmod := Nat.mod_le ((t._finder.AllocationAt bodyIndex).Address +
      (t._finder.AllocationAt bodyIndex).Size) (2 ^ (8 * sizeofOffset))
    refine ⟨k, ?_, hout, htriple.1, hb.1, hb.2.1, hb.2.2.1, by omega, ?_⟩
    · simp only [ContiguousImage.OffsetLimit] at hk
      omega
    · intro hsize
      exact bodyLimit_no_overflow sizeofOffset _ _ hsize hb.2.2.2.2

end chap
